import Mathlib

/-!
Shallow embedding of the oplog-to-SQL translation engine of `op-log-parser`
(package `parsers`, the stateful parser with nested-object and array support),
together with proofs of the specified properties.

Go `map[string]any` values are modelled as association lists with unique keys;
iteration order is the list order (Go map iteration is unspecified, and every
place where the order is observable sorts first).  Go `float64` is modelled by
exact rationals.  Go `error` returns are modelled by an explicit error type,
and a failed type assertion (a Go runtime panic) by a distinguished outcome.
-/

namespace OpLogParser

/-- Byte-wise (here: character-wise) lexicographic order on character lists,
modelling the ordering used by Go `sort.Strings`. -/
def leChars : List Char → List Char → Bool
  | [], _ => true
  | _ :: _, [] => false
  | a :: as, b :: bs => if a < b then true else if b < a then false else leChars as bs

/-- Lexicographic order on strings (model of Go string comparison). -/
def strLeb (a b : String) : Bool := leChars a.data b.data

/-- The order on strings as a relation, for use with sorting lemmas. -/
def strLe (a b : String) : Prop := strLeb a b = true

instance : DecidableRel strLe := fun a b =>
  inferInstanceAs (Decidable (strLeb a b = true))

/-- Model of Go `sort.Strings`: ascending lexicographic sort.  Go uses an
unstable quicksort, but on a list of strings every sorted permutation is the
same list, so insertion sort is an exact model of the result. -/
def sortStrings (l : List String) : List String := List.insertionSort strLe l

/-- The dynamic values carried in an oplog document (`map[string]any` entries):
strings, booleans, numbers (Go `float64`, modelled exactly as rationals),
nested documents, arrays, and JSON null. -/
inductive Value : Type where
  | str (s : String)
  | bool (b : Bool)
  | num (q : ℚ)
  | obj (m : List (String × Value))
  | arr (l : List Value)
  | null

/-- A decoded document: the `o` payload of an oplog entry (`map[string]any`). -/
abbrev Data := List (String × Value)

/-- Go map read `data[key]`: the value stored under `key`, if any. -/
def lookupD : Data → String → Option Value
  | [], _ => none
  | (k, v) :: rest, key => if k = key then some v else lookupD rest key

/-- Go map write `data[key] = v`: replace the binding if present, else add it. -/
def upsert : Data → String → Value → Data
  | [], key, v => [(key, v)]
  | (k, w) :: rest, key, v =>
    if k = key then (key, v) :: rest else (k, w) :: upsert rest key v

/-- The key set of a document, in iteration order. -/
def keysD (d : Data) : List String := d.map Prod.fst

/-- Decimal digit characters of a natural number, most significant first
(model of Go `%d` on a non-negative value). -/
def natDigs (n : Nat) : List Char :=
  if h : n < 10 then [Char.ofNat (48 + n)]
  else natDigs (n / 10) ++ [Char.ofNat (48 + n % 10)]
termination_by n
decreasing_by exact Nat.div_lt_self (by omega) (by omega)

/-- Decimal rendering of a natural number. -/
def fmtNat (n : Nat) : String := ⟨natDigs n⟩

/-- Model of Go `fmt.Sprintf("%d", n)` on an `int`. -/
def fmtInt (n : Int) : String :=
  if n < 0 then "-" ++ fmtNat n.natAbs else fmtNat n.natAbs

/-- Exactly `k` decimal digits of `n`, zero-padded on the left (the fractional
digit block of a fixed-point literal). -/
def padDigits : Nat → Nat → List Char
  | 0, _ => []
  | k + 1, n => padDigits k (n / 10) ++ [Char.ofNat (48 + n % 10)]

/-- Exact mathematical truncation of a rational toward zero. -/
def ratTrunc (q : ℚ) : Int := q.num.tdiv (q.den : Int)

/-- Go `int(val)` on a `float64`: a conversion to a 64-bit integer.  In range
it truncates toward zero; for an out-of-range value the Go specification
leaves the result implementation-defined, modelled here as the gc/amd64
result `math.MinInt64`.  (Every choice of a 64-bit result gives the same
observable behaviour in `formatValue`: the round trip through `float64`
cannot reproduce a value of magnitude above `2^63`.) -/
def goInt (q : ℚ) : Int :=
  if -9223372036854775808 ≤ ratTrunc q ∧ ratTrunc q ≤ 9223372036854775807 then
    ratTrunc q
  else -9223372036854775808

/-- Floor of a rational, computed directly. -/
def ratFloor (q : ℚ) : Int := q.num.fdiv (q.den : Int)

/-- Round to the nearest integer, ties to even: the rounding performed by Go
`fmt` when trimming a float to a fixed number of fractional digits. -/
def roundHalfEven (x : ℚ) : Int :=
  let f := ratFloor x
  let r := x - (f : ℚ)
  if r < 1 / 2 then f
  else if 1 / 2 < r then f + 1
  else if f % 2 = 0 then f else f + 1

/-- Model of Go `fmt.Sprintf("%f", q)`: fixed point with six fractional
digits. -/
def fmtFloat6 (q : ℚ) : String :=
  let n := (roundHalfEven (q * 1000000)).natAbs
  let sign := if q < 0 then "-" else ""
  sign ++ fmtNat (n / 1000000) ++ "." ++ ⟨padDigits 6 (n % 1000000)⟩

/-- The rational one half, given by its normal form so that all of its
projections compute by kernel reduction. -/
def ratHalf : ℚ := ⟨1, 2, by decide, Nat.coprime_one_left 2⟩

mutual

/-- Model of Go `fmt.Sprintf("%v", v)` default stringification, used by
`formatValue` only for values outside the scalar lattice.  Composite values
render as Go prints them (`map[k:v ...]` with sorted entries, `[v ...]`,
`<nil>`); a bare number inside a composite is rendered through the fixed-point
model rather than Go shortest-float notation, a difference confined to this
untested fallback path. -/
def goShow : Value → String
  | .str s => s
  | .bool b => if b then "true" else "false"
  | .num q => if q = ((goInt q : Int) : ℚ) then fmtInt (goInt q) else fmtFloat6 q
  | .obj m => "map[" ++ String.intercalate " " (sortStrings (goShowEntries m)) ++ "]"
  | .arr l => "[" ++ String.intercalate " " (goShowList l) ++ "]"
  | .null => "<nil>"

/-- Renders each array element (helper of `goShow`). -/
def goShowList : List Value → List String
  | [] => []
  | v :: vs => goShow v :: goShowList vs

/-- Renders each map entry as `key:value` (helper of `goShow`). -/
def goShowEntries : List (String × Value) → List String
  | [] => []
  | (k, v) :: rest => (k ++ ":" ++ goShow v) :: goShowEntries rest

end

/-- Embedding of `formatValue` (part_003 lines 440-454): SQL literal for a
value.  Strings are single-quoted without escaping; booleans lowercase; a
float that equals its integer truncation prints as a decimal integer, any
other float in fixed point with six fractional digits; everything else is the
default stringification wrapped in single quotes. -/
def formatValue : Value → String
  | .str s => "'" ++ s ++ "'"
  | .bool b => if b then "true" else "false"
  | .num q => if q = ((goInt q : Int) : ℚ) then fmtInt (goInt q) else fmtFloat6 q
  | v => "'" ++ goShow v ++ "'"

/-- The error values produced by the parser, one constructor per
`fmt.Errorf` site of the source. -/
inductive GoErr : Type where
  /-- `unsupported oplog operation: %s` -/
  | unsupportedOp (op : String)
  /-- `error parsing namespace, invalid namespace` -/
  | invalidNamespace
  /-- `empty data field for insert` -/
  | missingData
  /-- `_id field is missing` -/
  | missingId
  /-- `invalid diff field in update oplog` -/
  | invalidDiff
  /-- `error converting: %v to sql type for field %v` -/
  | typeErr (field : String) (v : Value)
  /-- `expected map[string]any for %s, got %T` -/
  | notMap (table : String)

/-- Outcome of a handler call: a normal return value, a returned Go `error`,
or a runtime panic (failed type assertion). -/
inductive GoResult (α : Type) : Type where
  | ok (val : α)
  | err (e : GoErr)
  | panicked

/-- Split a character list at every `.` (model of `strings.Split(s, ".")`). -/
def splitDot : List Char → List (List Char)
  | [] => [[]]
  | c :: cs =>
    if c = '.' then [] :: splitDot cs
    else
      match splitDot cs with
      | [] => [[c]]
      | h :: t => (c :: h) :: t

/-- Embedding of `parseNamespace` (part_003 lines 368-374): the namespace must
split on `.` into exactly two non-empty parts. -/
def parseNamespace (namespace0 : String) : Except GoErr (String × String) :=
  match splitDot namespace0.data with
  | [p1, p2] =>
    if p1 = [] ∨ p2 = [] then .error .invalidNamespace
    else .ok (⟨p1⟩, ⟨p2⟩)
  | _ => .error .invalidNamespace

/-- Embedding of `getSqlType` (part_003 lines 423-438): the coarse type
lattice.  The `_id` column is always the primary key; strings map to VARCHAR,
booleans to BOOLEAN, numbers to FLOAT; anything else is a conversion error. -/
def getSqlType (fieldName : String) (value : Value) : Except GoErr String :=
  if fieldName = "_id" then .ok "VARCHAR(255) PRIMARY KEY"
  else
    match value with
    | .str _ => .ok "VARCHAR(255)"
    | .bool _ => .ok "BOOLEAN"
    | .num _ => .ok "FLOAT"
    | v => .error (.typeErr fieldName v)

/-- Column definitions `<name> <type>` for the given column names, resolving
each type from `data`; the first conversion error aborts (shared shape of the
loops in `prepareTableDDL`, `prepareNestedTableDDL` and
`prepareAlterStatement`). -/
def typedColumnDefs (data : Data) : List String → Except GoErr (List String)
  | [] => .ok []
  | col :: rest =>
    match getSqlType col ((lookupD data col).getD .null) with
    | .error e => .error e
    | .ok sqlType =>
      match typedColumnDefs data rest with
      | .error e => .error e
      | .ok defs => .ok ((col ++ " " ++ sqlType) :: defs)

/-- Embedding of `prepareTableDDL` (part_003 lines 402-421): CREATE TABLE over
the sorted columns of `data`. -/
def prepareTableDDL (schema table : String) (data : Data) : Except GoErr String :=
  match typedColumnDefs data (sortStrings (keysD data)) with
  | .error e => .error e
  | .ok tableFields =>
    .ok ("CREATE TABLE " ++ schema ++ "." ++ table ++ " (" ++
      String.intercalate ", " tableFields ++ ");")

/-- Embedding of `prepareNestedTableDDL` (part_003 lines 376-400): as
`prepareTableDDL`, except that the back-reference column
`<parentTable>__id` is typed from the parent id string. -/
def prepareNestedTableDDL (schema table : String) (data : Data)
    (parentTable referenceTableId : String) : Except GoErr String :=
  match typedColumnDefs (upsert data (parentTable ++ "__id") (.str referenceTableId))
      (sortStrings (keysD data)) with
  | .error e => .error e
  | .ok tableFields =>
    .ok ("CREATE TABLE " ++ schema ++ "." ++ table ++ " (" ++
      String.intercalate ", " tableFields ++ ");")

/-- Embedding of `prepareAlterStatement` (part_003 lines 318-336): ALTER TABLE
ADD over the sorted new fields. -/
def prepareAlterStatement (schema table : String) (newFields : Data) :
    Except GoErr String :=
  match typedColumnDefs newFields (sortStrings (keysD newFields)) with
  | .error e => .error e
  | .ok columnDefinitions =>
    .ok ("ALTER TABLE " ++ schema ++ "." ++ table ++ " ADD " ++
      String.intercalate ", " columnDefinitions ++ ";")

/-- Embedding of `prepareInsertStatement` (part_003 lines 338-366): empty data
is an error; otherwise the column list is the sorted known columns and each
value is the row's formatted value, or `NULL` when the row has none. -/
def prepareInsertStatement (schema table : String) (data : Data)
    (knownColumns : List String) : Except GoErr String :=
  if data.isEmpty then .error .missingData
  else
    let columns := sortStrings knownColumns
    let values := columns.map fun col =>
      match lookupD data col with
      | none => "NULL"
      | some v => formatValue v
    .ok ("INSERT INTO " ++ schema ++ "." ++ table ++ " (" ++
      String.intercalate ", " columns ++ ") VALUES (" ++
      String.intercalate ", " values ++ ");")

/-- The mutable fields of `opLogParser` (part_003 lines 39-43), plus the call
counter of the injected identifier generator: the generator itself is a pure
function of how many identifiers were already drawn. -/
structure PState : Type where
  ddlTracker : List String
  columnsTracker : List (String × List String)
  uuidCount : Nat

/-- Embedding of `isDDLGenerated` (part_003 lines 226-228). -/
def isDDLGenerated (st : PState) (namespace0 : String) : Bool :=
  st.ddlTracker.contains namespace0

/-- Embedding of `markDDLGenerated` (part_003 lines 230-232). -/
def markDDLGenerated (st : PState) (namespace0 : String) : PState :=
  if st.ddlTracker.contains namespace0 then st
  else { st with ddlTracker := namespace0 :: st.ddlTracker }

/-- Embedding of `getKnownColumns` (part_003 lines 219-224): the recorded
column set, or the empty set for an untracked namespace. -/
def getKnownColumns (st : PState) (namespace0 : String) : List String :=
  (st.columnsTracker.lookup namespace0).getD []

/-- Replace or add one entry of the columns tracker. -/
def setCols (l : List (String × List String)) (namespace0 : String)
    (cols : List String) : List (String × List String) :=
  match l with
  | [] => [(namespace0, cols)]
  | (k, v) :: rest =>
    if k = namespace0 then (namespace0, cols) :: rest
    else (k, v) :: setCols rest namespace0 cols

/-- Embedding of `initializeColumnTracker` (part_003 lines 234-239): the
column set becomes the key set of `data`. -/
def initializeColumnTracker (st : PState) (namespace0 : String) (data : Data) :
    PState :=
  { st with columnsTracker := setCols st.columnsTracker namespace0 (keysD data) }

/-- Embedding of `updateColumnsTracker` (part_003 lines 241-247): add the new
field names to an existing entry; silently do nothing for an untracked
namespace. -/
def updateColumnsTracker (st : PState) (namespace0 : String) (newFields : Data) :
    PState :=
  match st.columnsTracker.lookup namespace0 with
  | none => st
  | some cols =>
    { st with
      columnsTracker := setCols st.columnsTracker namespace0
        (cols ++ (keysD newFields).filter (fun f => !(cols.contains f))) }

/-- Embedding of `splitData` (part_003 lines 249-271): partition a document
into scalar fields, nested objects, and non-empty arrays whose first element
is an object; empty arrays are dropped, and other arrays (scalar-first) stay
with the scalar fields. -/
def splitData : Data → Data × Data × List (String × List Value)
  | [] => ([], [], [])
  | (key, value) :: rest =>
    let (m, n, a) := splitData rest
    match value with
    | .obj o => (m, (key, .obj o) :: n, a)
    | .arr [] => (m, n, a)
    | .arr (x :: xs) =>
      match x with
      | .obj o => (m, n, (key, .obj o :: xs) :: a)
      | _ => ((key, .arr (x :: xs)) :: m, n, a)
    | v => ((key, v) :: m, n, a)

/-- The decoded oplog entry (part_003 lines 23-32). -/
structure OpLog : Type where
  op : String
  ns : String
  o : Data
  o2 : Option String

/-- Embedding of `generateTableDDLAndInsertForNestedObject` (part_003 lines
285-316).  The nested value must be an object; it is augmented in place (the
Go map is shared with the caller, so the augmented object is returned as the
new content of the caller's field) with a fresh `_id` and the back-reference
`<parentTable>__id`; the child CREATE TABLE is emitted on first sight of the
child table key, and the child INSERT always. -/
def generateTableDDLAndInsertForNestedObject (gen : Nat → String) (st : PState)
    (schema table parentID parentTable : String) (data : Value) :
    GoResult (List String) × Value × PState :=
  match data with
  | .obj nestedData0 =>
    let nestedData := upsert (upsert nestedData0 "_id" (.str (gen st.uuidCount)))
      (parentTable ++ "__id") (.str parentID)
    let st1 := { st with uuidCount := st.uuidCount + 1 }
    let tableSchemaName := schema ++ "." ++ table
    if isDDLGenerated st1 tableSchemaName then
      match prepareInsertStatement schema table nestedData
          (getKnownColumns st1 tableSchemaName) with
      | .error e => (.err e, .obj nestedData, st1)
      | .ok insertStmt => (.ok [insertStmt], .obj nestedData, st1)
    else
      match prepareNestedTableDDL schema table nestedData parentTable parentID with
      | .error e => (.err e, .obj nestedData, st1)
      | .ok tableStatement =>
        let st2 := initializeColumnTracker (markDDLGenerated st1 tableSchemaName)
          tableSchemaName nestedData
        match prepareInsertStatement schema table nestedData
            (getKnownColumns st2 tableSchemaName) with
        | .error e => (.err e, .obj nestedData, st2)
        | .ok insertStmt => (.ok [tableStatement, insertStmt], .obj nestedData, st2)
  | v => (.err (.notMap table), v, st)

/-- Embedding of `generateTableDDLAndInsertForArray` (part_003 lines 273-283):
one child row per array element; the returned list is the array content after
the per-element in-place augmentations. -/
def generateTableDDLAndInsertForArray (gen : Nat → String) (st : PState)
    (schema table parentID parentTable : String) :
    List Value → GoResult (List String) × List Value × PState
  | [] => (.ok [], [], st)
  | item :: rest =>
    match generateTableDDLAndInsertForNestedObject gen st schema table parentID
        parentTable item with
    | (.ok stmts, v1, st1) =>
      match generateTableDDLAndInsertForArray gen st1 schema table parentID
          parentTable rest with
      | (.ok stmts2, vs, st2) => (.ok (stmts ++ stmts2), v1 :: vs, st2)
      | (.err e, vs, st2) => (.err e, v1 :: vs, st2)
      | (.panicked, vs, st2) => (.panicked, v1 :: vs, st2)
    | (.err e, v1, st1) => (.err e, v1 :: rest, st1)
    | (.panicked, v1, st1) => (.panicked, v1 :: rest, st1)

/-- The `for field, nestedObj := range nestedData` loops of `handleInsert`
(part_003 lines 102-109 and 139-146).  Each iteration re-reads
`opLog.Data["_id"]` and asserts it to be a string — a non-string or missing
`_id` is a runtime panic.  The caller's document is threaded through because
the nested objects are augmented in place. -/
def nestedFieldsLoop (gen : Nat → String) (st : PState) (d : Data)
    (schema table : String) :
    Data → GoResult (List String) × Data × PState
  | [] => (.ok [], d, st)
  | (field, nestedObj) :: rest =>
    match lookupD d "_id" with
    | some (.str parentID) =>
      match generateTableDDLAndInsertForNestedObject gen st schema
          (table ++ "_" ++ field) parentID table nestedObj with
      | (.ok stmts, v1, st1) =>
        match nestedFieldsLoop gen st1 (upsert d field v1) schema table rest with
        | (.ok stmts2, d2, st2) => (.ok (stmts ++ stmts2), d2, st2)
        | (.err e, d2, st2) => (.err e, d2, st2)
        | (.panicked, d2, st2) => (.panicked, d2, st2)
      | (.err e, v1, st1) => (.err e, upsert d field v1, st1)
      | (.panicked, v1, st1) => (.panicked, upsert d field v1, st1)
    | _ => (.panicked, d, st)

/-- The `for field, nestedArray := range arrayData` loops of `handleInsert`
(part_003 lines 111-118 and 147-154), with the same per-iteration `_id`
type assertion. -/
def arrayFieldsLoop (gen : Nat → String) (st : PState) (d : Data)
    (schema table : String) :
    List (String × List Value) → GoResult (List String) × Data × PState
  | [] => (.ok [], d, st)
  | (field, nestedArray) :: rest =>
    match lookupD d "_id" with
    | some (.str parentID) =>
      match generateTableDDLAndInsertForArray gen st schema
          (table ++ "_" ++ field) parentID table nestedArray with
      | (.ok stmts, vs, st1) =>
        match arrayFieldsLoop gen st1 (upsert d field (.arr vs)) schema table rest with
        | (.ok stmts2, d2, st2) => (.ok (stmts ++ stmts2), d2, st2)
        | (.err e, d2, st2) => (.err e, d2, st2)
        | (.panicked, d2, st2) => (.panicked, d2, st2)
      | (.err e, vs, st1) => (.err e, upsert d field (.arr vs), st1)
      | (.panicked, vs, st1) => (.panicked, upsert d field (.arr vs), st1)
    | _ => (.panicked, d, st)

/-- The new-field computation of `handleInsert` (part_003 lines 123-129):
the main-data entries whose column is not yet known. -/
def newFieldsOf (st : PState) (namespace0 : String) (mainData : Data) : Data :=
  mainData.filter fun p => !((getKnownColumns st namespace0).contains p.1)

/-- Embedding of `handleInsert` (part_003 lines 85-163).  Returns the
statement batch, the content of the caller's `opLog.Data` after the call
(nested objects are augmented in place), and the parser state after the call
(also on error: tracker mutations made before a failure persist). -/
def handleInsert (gen : Nat → String) (st : PState) (opLog : OpLog) :
    GoResult (List String) × Data × PState :=
  match parseNamespace opLog.ns with
  | .error e => (.err e, opLog.o, st)
  | .ok (schema, table) =>
    let (mainData, nestedData, arrayData) := splitData opLog.o
    if isDDLGenerated st opLog.ns then
      let newFields := newFieldsOf st opLog.ns mainData
      match (if newFields.isEmpty then .ok none
             else (prepareAlterStatement schema table newFields).map some :
             Except GoErr (Option String)) with
      | .error e => (.err e, opLog.o, st)
      | .ok alterStmt =>
        let st1 := if newFields.isEmpty then st
                   else updateColumnsTracker st opLog.ns newFields
        match nestedFieldsLoop gen st1 opLog.o schema table nestedData with
        | (.ok stmts2, d2, st2) =>
          match arrayFieldsLoop gen st2 d2 schema table arrayData with
          | (.ok stmts3, d3, st3) =>
            match prepareInsertStatement schema table d3
                (getKnownColumns st3 opLog.ns) with
            | .error e => (.err e, d3, st3)
            | .ok insertStatement =>
              (.ok (alterStmt.toList ++ stmts2 ++ stmts3 ++ [insertStatement]),
                d3, st3)
          | (.err e, d3, st3) => (.err e, d3, st3)
          | (.panicked, d3, st3) => (.panicked, d3, st3)
        | (.err e, d2, st2) => (.err e, d2, st2)
        | (.panicked, d2, st2) => (.panicked, d2, st2)
    else
      let schemaStatement := "CREATE SCHEMA " ++ schema ++ ";"
      match prepareTableDDL schema table mainData with
      | .error e => (.err e, opLog.o, st)
      | .ok tableStatement =>
        match nestedFieldsLoop gen st opLog.o schema table nestedData with
        | (.ok stmts2, d2, st2) =>
          match arrayFieldsLoop gen st2 d2 schema table arrayData with
          | (.ok stmts3, d3, st3) =>
            let st4 := initializeColumnTracker (markDDLGenerated st3 opLog.ns)
              opLog.ns mainData
            match prepareInsertStatement schema table d3
                (getKnownColumns st4 opLog.ns) with
            | .error e => (.err e, d3, st4)
            | .ok insertStatement =>
              (.ok (schemaStatement :: tableStatement :: (stmts2 ++ stmts3 ++
                [insertStatement])), d3, st4)
          | (.err e, d3, st3) => (.err e, d3, st3)
          | (.panicked, d3, st3) => (.panicked, d3, st3)
        | (.err e, d2, st2) => (.err e, d2, st2)
        | (.panicked, d2, st2) => (.panicked, d2, st2)

/-- The set-clauses of an update, from the `u` sub-mapping of `diff`
(part_003 lines 180-190): `field = value`, sorted ascending. -/
def updateSetClauses (diff : Data) : List String :=
  match lookupD diff "u" with
  | some (.obj setFields) =>
    sortStrings (setFields.map fun p => p.1 ++ " = " ++ formatValue p.2)
  | _ => []

/-- The unset-clauses of an update, from the `d` sub-mapping of `diff`
(part_003 lines 192-202): `field = NULL`, sorted ascending. -/
def updateUnsetClauses (diff : Data) : List String :=
  match lookupD diff "d" with
  | some (.obj unsetFields) =>
    sortStrings (unsetFields.map fun p => p.1 ++ " = NULL")
  | _ => []

/-- Embedding of `handleUpdate` (part_003 lines 165-205): requires a non-empty
`o2._id` and an object under `diff`; emits exactly one UPDATE statement whose
SET list is the sorted set-clauses followed by the sorted unset-clauses.
Neither the document nor the parser state is touched. -/
def handleUpdate (st : PState) (opLog : OpLog) :
    GoResult (List String) × Data × PState :=
  match opLog.o2 with
  | none => (.err .missingId, opLog.o, st)
  | some id0 =>
    if id0 = "" then (.err .missingId, opLog.o, st)
    else
      match lookupD opLog.o "diff" with
      | some (.obj diff) =>
        match parseNamespace opLog.ns with
        | .error e => (.err e, opLog.o, st)
        | .ok (schema, table) =>
          let setClauses := updateSetClauses diff ++ updateUnsetClauses diff
          (.ok ["UPDATE " ++ schema ++ "." ++ table ++ " SET " ++
            String.intercalate ", " setClauses ++ " WHERE _id = '" ++ id0 ++ "';"],
            opLog.o, st)
      | _ => (.err .invalidDiff, opLog.o, st)

/-- Embedding of `handleDelete` (part_003 lines 207-217). -/
def handleDelete (st : PState) (opLog : OpLog) :
    GoResult (List String) × Data × PState :=
  match lookupD opLog.o "_id" with
  | none => (.err .missingId, opLog.o, st)
  | some id0 =>
    match parseNamespace opLog.ns with
    | .error e => (.err e, opLog.o, st)
    | .ok (schema, table) =>
      (.ok ["DELETE FROM " ++ schema ++ "." ++ table ++ " WHERE _id = " ++
        formatValue id0 ++ ";"], opLog.o, st)

/-- Embedding of `ProcessOpLog` (part_003 lines 72-83): dispatch on the
operation tag. -/
def processOpLog (gen : Nat → String) (st : PState) (opLog : OpLog) :
    GoResult (List String) × Data × PState :=
  if opLog.op = "i" then handleInsert gen st opLog
  else if opLog.op = "u" then handleUpdate st opLog
  else if opLog.op = "d" then handleDelete st opLog
  else (.err (.unsupportedOp opLog.op), opLog.o, st)

/-! ### Statement-shape predicates -/

/-- A `CREATE SCHEMA ...` statement. -/
def isCreateSchemaStmt (s : String) : Prop := ∃ r, s = "CREATE SCHEMA " ++ r

/-- A `CREATE TABLE ...` statement. -/
def isCreateTableStmt (s : String) : Prop := ∃ r, s = "CREATE TABLE " ++ r

/-- An `INSERT INTO ...` statement. -/
def isInsertStmt (s : String) : Prop := ∃ r, s = "INSERT INTO " ++ r

/-- An `ALTER TABLE ...` statement. -/
def isAlterStmt (s : String) : Prop := ∃ r, s = "ALTER TABLE " ++ r

/-- One child-row emission group: the child table's `CREATE TABLE` (present
exactly when the table was not yet emitted) immediately followed by the child
`INSERT`. -/
def childGroup (g : List String) : Prop :=
  (∃ c i, g = [c, i] ∧ isCreateTableStmt c ∧ isInsertStmt i) ∨
  (∃ i, g = [i] ∧ isInsertStmt i)

/-- A child-statement block: a concatenation of child-row groups. -/
def childBlock (stmts : List String) : Prop :=
  ∃ groups : List (List String),
    stmts = groups.flatten ∧ ∀ g ∈ groups, childGroup g

/-! ### Concrete fixtures, mirroring the repository's test inputs -/

/-- The deterministic identifier generator injected by the tests. -/
def gen0 : Nat → String := fun _ => "random-uuid"

/-- A freshly created parser (model of `NewParser`): empty trackers. -/
def newParser : PState := ⟨[], [], 0⟩

/-- A flat insert into namespace `test.a`. -/
def insRecA : OpLog :=
  { op := "i", ns := "test.a", o := [("_id", .str "a1")], o2 := none }

/-- A flat insert into namespace `test.b` — same schema part as `insRecA`,
different namespace. -/
def insRecB : OpLog :=
  { op := "i", ns := "test.b", o := [("_id", .str "b1")], o2 := none }

/-- An update record with a `diff` containing both a set and an unset group
(the repository's update fixture). -/
def updRecD : OpLog :=
  { op := "u", ns := "test.student",
    o := [("diff", .obj
      [("u", .obj [("name", .str "Updated Name"), ("status", .str "active")]),
       ("d", .obj [("old_field", .bool true), ("temp_data", .num 1)])])],
    o2 := some "idXYZ" }

/-- An update record whose `diff` has no usable set or unset group. -/
def updRecEmptyDiff : OpLog :=
  { op := "u", ns := "test.student", o := [("diff", .obj [])],
    o2 := some "idXYZ" }

/-! ### Order and sorting facts -/

theorem leChars_total : ∀ a b : List Char, leChars a b = true ∨ leChars b a = true
  | [], _ => .inl rfl
  | _ :: _, [] => .inr rfl
  | a :: as, b :: bs => by
    rcases lt_trichotomy a b with h | h | h
    · left; simp [leChars, h]
    · subst h
      rcases leChars_total as bs with ih | ih
      · left; simpa [leChars, lt_irrefl] using ih
      · right; simpa [leChars, lt_irrefl] using ih
    · right
      simp [leChars, h, not_lt_of_gt h]

theorem leChars_trans : ∀ a b c : List Char,
    leChars a b = true → leChars b c = true → leChars a c = true
  | [], _, _ => fun _ _ => rfl
  | _ :: _, [], _ => by simp [leChars]
  | _ :: _, _ :: _, [] => by simp [leChars]
  | a :: as, b :: bs, c :: cs => by
    intro h1 h2
    rcases lt_trichotomy a b with hab | hab | hab
    · rcases lt_trichotomy b c with hbc | hbc | hbc
      · simp [leChars, lt_trans hab hbc]
      · subst hbc; simp [leChars, hab]
      · simp [leChars, not_lt_of_gt hbc, hbc] at h2
    · subst hab
      rcases lt_trichotomy a c with hbc | hbc | hbc
      · simp [leChars, hbc]
      · subst hbc
        simp only [leChars, lt_irrefl, if_false] at h1 h2 ⊢
        exact leChars_trans as bs cs h1 h2
      · simp [leChars, not_lt_of_gt hbc, hbc] at h2
    · simp [leChars, not_lt_of_gt hab, hab] at h1

instance : IsTotal String strLe :=
  ⟨fun a b => leChars_total a.data b.data⟩

instance : IsTrans String strLe :=
  ⟨fun a b c h1 h2 => leChars_trans a.data b.data c.data h1 h2⟩

theorem sortStrings_sorted (l : List String) : (sortStrings l).Pairwise strLe :=
  List.sorted_insertionSort strLe l

theorem sortStrings_perm (l : List String) : (sortStrings l).Perm l :=
  List.perm_insertionSort strLe l

/-! ### Decimal rendering facts -/

theorem digitChar_isDigit (d : Nat) (h : d < 10) :
    (Char.ofNat (48 + d)).isDigit = true := by
  interval_cases d <;> decide

theorem natDigs_digit (n : Nat) : ∀ c ∈ natDigs n, c.isDigit = true := by
  induction n using Nat.strong_induction_on with
  | _ n ih =>
    intro c hc
    rw [natDigs] at hc
    split at hc
    · rename_i h
      simp only [List.mem_singleton] at hc
      exact hc ▸ digitChar_isDigit n h
    · rename_i h
      rcases List.mem_append.1 hc with hc | hc
      · exact ih (n / 10) (Nat.div_lt_self (by omega) (by omega)) c hc
      · simp only [List.mem_singleton] at hc
        exact hc ▸ digitChar_isDigit (n % 10) (Nat.mod_lt _ (by omega))

theorem padDigits_length (k n : Nat) : (padDigits k n).length = k := by
  induction k generalizing n with
  | zero => rfl
  | succ k ih => simp [padDigits, ih]

theorem padDigits_digit (k n : Nat) : ∀ c ∈ padDigits k n, c.isDigit = true := by
  induction k generalizing n with
  | zero => intro c hc; simp [padDigits] at hc
  | succ k ih =>
    intro c hc
    rcases List.mem_append.1 hc with hc | hc
    · exact ih (n / 10) c hc
    · simp only [List.mem_singleton] at hc
      exact hc ▸ digitChar_isDigit (n % 10) (Nat.mod_lt _ (by omega))

theorem ne_dot_of_isDigit {c : Char} (h : c.isDigit = true) : c ≠ '.' := by
  intro hc; subst hc; simp at h

theorem fmtInt_no_dot (n : Int) : ∀ c ∈ (fmtInt n).data, c ≠ '.' := by
  intro c hc
  unfold fmtInt at hc
  split at hc
  · rw [String.data_append] at hc
    rcases List.mem_append.1 hc with hc | hc
    · simp only [show ("-" : String).data = ['-'] from rfl, List.mem_singleton] at hc
      subst hc; decide
    · exact ne_dot_of_isDigit (natDigs_digit _ c hc)
  · exact ne_dot_of_isDigit (natDigs_digit _ c hc)

/-- The fixed-point rendering always consists of a dot-free head followed by
a decimal point and exactly six digits. -/
theorem fmtFloat6_shape (q : ℚ) :
    ∃ pre post, (fmtFloat6 q).data = pre ++ '.' :: post ∧
      post.length = 6 ∧ (∀ c ∈ post, c.isDigit = true) ∧
      ∀ c ∈ pre, c ≠ '.' := by
  unfold fmtFloat6
  refine ⟨(if q < 0 then "-" else "").data ++
    natDigs ((roundHalfEven (q * 1000000)).natAbs / 1000000),
    padDigits 6 ((roundHalfEven (q * 1000000)).natAbs % 1000000), ?_, ?_, ?_, ?_⟩
  · simp only [String.data_append, fmtNat]
    simp [List.append_assoc]
  · exact padDigits_length _ _
  · exact padDigits_digit _ _
  · intro c hc
    rcases List.mem_append.1 hc with hc | hc
    · split at hc
      · simp only [show ("-" : String).data = ['-'] from rfl,
          List.mem_singleton] at hc
        subst hc; decide
      · simp only [show ("" : String).data = [] from rfl] at hc
        exact absurd hc (List.not_mem_nil c)
    · exact ne_dot_of_isDigit (natDigs_digit _ c hc)

/-- The branch condition `val == float64(int(val))` of `formatValue` holds
exactly for values that are integer-valued AND whose truncation fits in a
64-bit int: an out-of-range conversion result rounds back to a value of
magnitude at most `2^63`, which cannot equal the input. -/
theorem goInt_cond_iff (q : ℚ) :
    q = ((goInt q : Int) : ℚ) ↔
      (q = ((ratTrunc q : Int) : ℚ) ∧
        -9223372036854775808 ≤ ratTrunc q ∧
        ratTrunc q ≤ 9223372036854775807) := by
  unfold goInt
  by_cases hr : -9223372036854775808 ≤ ratTrunc q ∧
      ratTrunc q ≤ 9223372036854775807
  · rw [if_pos hr]
    exact ⟨fun h => ⟨h, hr⟩, fun h => h.1⟩
  · rw [if_neg hr]
    constructor
    · intro h
      exfalso
      apply hr
      have ht : ratTrunc q = -9223372036854775808 := by
        rw [h]
        unfold ratTrunc
        rw [Rat.num_intCast, Rat.den_intCast]
        simp [Int.tdiv_one]
      rw [ht]
      exact ⟨by decide, by decide⟩
    · rintro ⟨-, h2⟩
      exact absurd h2 hr

/-- C7 amended: if a floating-point value is mathematically equal to its
integer truncation AND that truncation is representable in a 64-bit int, the
produced SQL literal is a decimal integer with no decimal point; otherwise
(a fractional value, or an integer-valued float whose truncation overflows
64 bits, such as 1e20) it is a fixed-point literal with exactly six
fractional digits. -/
theorem claim_C7_float_formatting (q : ℚ) :
    (q = ((ratTrunc q : Int) : ℚ) ∧
        -9223372036854775808 ≤ ratTrunc q ∧
        ratTrunc q ≤ 9223372036854775807 →
      formatValue (.num q) = fmtInt (ratTrunc q) ∧
      ∀ c ∈ (formatValue (.num q)).data, c ≠ '.') ∧
    (q ≠ ((ratTrunc q : Int) : ℚ) ∨
        ¬(-9223372036854775808 ≤ ratTrunc q ∧
          ratTrunc q ≤ 9223372036854775807) →
      ∃ pre post, (formatValue (.num q)).data = pre ++ '.' :: post ∧
        post.length = 6 ∧ (∀ c ∈ post, c.isDigit = true) ∧
        ∀ c ∈ pre, c ≠ '.') := by
  constructor
  · rintro ⟨hq, hr⟩
    have hcode : q = ((goInt q : Int) : ℚ) := (goInt_cond_iff q).2 ⟨hq, hr⟩
    have hg : goInt q = ratTrunc q := by unfold goInt; rw [if_pos hr]
    have he : formatValue (.num q) = fmtInt (ratTrunc q) := by
      rw [show formatValue (.num q) =
        (if q = ((goInt q : Int) : ℚ) then fmtInt (goInt q) else fmtFloat6 q)
        from rfl, if_pos hcode, hg]
    exact ⟨he, he ▸ fmtInt_no_dot (ratTrunc q)⟩
  · intro hdis
    have hcode : ¬(q = ((goInt q : Int) : ℚ)) := by
      intro hc
      obtain ⟨h1, h2⟩ := (goInt_cond_iff q).1 hc
      rcases hdis with hd | hd
      · exact hd h1
      · exact hd h2
    have he : formatValue (.num q) = fmtFloat6 q := by
      simp [formatValue, if_neg hcode]
    rw [he]
    exact fmtFloat6_shape q

/-- Witness for the amended C7 at the concrete inputs `3` (in-range integer)
and `1/2` (fractional). -/
theorem claim_C7_witness :
    (formatValue (.num 3) = fmtInt (ratTrunc 3) ∧
      ∀ c ∈ (formatValue (.num 3)).data, c ≠ '.') ∧
    (∃ pre post, (formatValue (.num ratHalf)).data = pre ++ '.' :: post ∧
      post.length = 6 ∧ (∀ c ∈ post, c.isDigit = true) ∧
      ∀ c ∈ pre, c ≠ '.') :=
  ⟨(claim_C7_float_formatting 3).1 ⟨by decide, by decide, by decide⟩,
   (claim_C7_float_formatting ratHalf).2 (Or.inl (by decide))⟩

/-- C7 counterexample: `1e20` is mathematically equal to its integer
truncation, yet the 64-bit `int(val)` conversion cannot round-trip it, so
`formatValue` takes the fixed-point branch and the literal contains a
decimal point followed by six fractional digits. -/
theorem claim_C7_counterexample :
    ((100000000000000000000 : ℚ) =
      ((ratTrunc 100000000000000000000 : Int) : ℚ)) ∧
    '.' ∈ (formatValue (.num 100000000000000000000)).data ∧
    ∃ pre post,
      (formatValue (.num 100000000000000000000)).data = pre ++ '.' :: post ∧
      post.length = 6 ∧ (∀ c ∈ post, c.isDigit = true) := by
  have hcode : ¬((100000000000000000000 : ℚ) =
      ((goInt 100000000000000000000 : Int) : ℚ)) := by decide
  have he : formatValue (.num 100000000000000000000) =
      fmtFloat6 100000000000000000000 := by
    simp [formatValue, if_neg hcode]
  obtain ⟨pre, post, h1, h2, h3, -⟩ := fmtFloat6_shape 100000000000000000000
  refine ⟨by decide, ?_, pre, post, he ▸ h1, h2, h3⟩
  rw [he, h1]
  exact List.mem_append.2 (Or.inr (List.mem_cons_self _ _))

/-! ### Update handling (C4, C5) -/

theorem updateSetClauses_sorted (diff : Data) :
    (updateSetClauses diff).Pairwise strLe := by
  unfold updateSetClauses
  split
  · exact sortStrings_sorted _
  · exact List.Pairwise.nil

theorem updateUnsetClauses_sorted (diff : Data) :
    (updateUnsetClauses diff).Pairwise strLe := by
  unfold updateUnsetClauses
  split
  · exact sortStrings_sorted _
  · exact List.Pairwise.nil

/-- What `handleUpdate` returns on a well-formed update record. -/
theorem processOpLog_update_eq (gen : Nat → String) (st : PState) (opLog : OpLog)
    (id0 : String) (diff : Data) (schema table : String)
    (hop : opLog.op = "u") (ho2 : opLog.o2 = some id0) (hid : id0 ≠ "")
    (hdiff : lookupD opLog.o "diff" = some (.obj diff))
    (hns : parseNamespace opLog.ns = .ok (schema, table)) :
    processOpLog gen st opLog =
      (.ok ["UPDATE " ++ schema ++ "." ++ table ++ " SET " ++
        String.intercalate ", " (updateSetClauses diff ++ updateUnsetClauses diff) ++
        " WHERE _id = '" ++ id0 ++ "';"], opLog.o, st) := by
  simp [processOpLog, hop, handleUpdate, ho2, hid, hdiff, hns]

/-- C4: an update with a present, non-empty `matchKey._id` and an object
under `diff` emits exactly one `UPDATE <schema>.<table> SET <clauses> WHERE
_id = '<id>';` statement, whose SET list is the ascending-sorted set-clauses
from `u` followed by the ascending-sorted unset-clauses from `d`, and leaves
both the document and the schema catalog unchanged. -/
theorem claim_C4_update_shape (gen : Nat → String) (st : PState) (opLog : OpLog)
    (id0 : String) (diff : Data) (schema table : String)
    (hop : opLog.op = "u") (ho2 : opLog.o2 = some id0) (hid : id0 ≠ "")
    (hdiff : lookupD opLog.o "diff" = some (.obj diff))
    (hns : parseNamespace opLog.ns = .ok (schema, table)) :
    processOpLog gen st opLog =
      (.ok ["UPDATE " ++ schema ++ "." ++ table ++ " SET " ++
        String.intercalate ", " (updateSetClauses diff ++ updateUnsetClauses diff) ++
        " WHERE _id = '" ++ id0 ++ "';"], opLog.o, st) ∧
    (updateSetClauses diff).Pairwise strLe ∧
    (updateUnsetClauses diff).Pairwise strLe ∧
    (∀ setFields, lookupD diff "u" = some (.obj setFields) →
      (updateSetClauses diff).Perm
        (setFields.map fun p => p.1 ++ " = " ++ formatValue p.2)) ∧
    (∀ unsetFields, lookupD diff "d" = some (.obj unsetFields) →
      (updateUnsetClauses diff).Perm
        (unsetFields.map fun p => p.1 ++ " = NULL")) := by
  refine ⟨?_, updateSetClauses_sorted diff, updateUnsetClauses_sorted diff, ?_, ?_⟩
  · exact processOpLog_update_eq gen st opLog id0 diff schema table hop ho2 hid hdiff hns
  · intro setFields h
    unfold updateSetClauses
    rw [h]
    exact sortStrings_perm _
  · intro unsetFields h
    unfold updateUnsetClauses
    rw [h]
    exact sortStrings_perm _

/-- Witness for C4 at the repository's concrete update fixture. -/
theorem claim_C4_witness :
    processOpLog gen0 newParser updRecD =
      (.ok ["UPDATE test.student SET name = 'Updated Name', status = 'active', old_field = NULL, temp_data = NULL WHERE _id = 'idXYZ';"],
        updRecD.o, newParser) := by
  have h := claim_C4_update_shape gen0 newParser updRecD "idXYZ"
    [("u", .obj [("name", .str "Updated Name"), ("status", .str "active")]),
     ("d", .obj [("old_field", .bool true), ("temp_data", .num 1)])]
    "test" "student" rfl rfl (by decide) rfl rfl
  exact h.1

/-- Any string of the form built by `handleUpdate` with an empty clause list
collapses to the double-space `SET  WHERE` rendering. -/
theorem update_empty_set_string (y id0 : String) :
    y ++ " SET " ++ String.intercalate ", " ([] : List String) ++
      " WHERE _id = '" ++ id0 ++ "';" =
    y ++ " SET  WHERE _id = '" ++ id0 ++ "';" := by
  rw [show String.intercalate ", " ([] : List String) = "" from rfl]
  apply String.ext
  simp [String.data_append]

/-- C5 amended: an update whose diff yields no set-clauses and no
unset-clauses does not fail; it emits exactly one UPDATE statement with an
empty SET list (`SET  WHERE`). -/
theorem claim_C5_empty_diff_emits (gen : Nat → String) (st : PState)
    (opLog : OpLog) (id0 : String) (diff : Data) (schema table : String)
    (hop : opLog.op = "u") (ho2 : opLog.o2 = some id0) (hid : id0 ≠ "")
    (hdiff : lookupD opLog.o "diff" = some (.obj diff))
    (hns : parseNamespace opLog.ns = .ok (schema, table))
    (hu : updateSetClauses diff = [])
    (hd : updateUnsetClauses diff = []) :
    processOpLog gen st opLog =
      (.ok ["UPDATE " ++ schema ++ "." ++ table ++ " SET  WHERE _id = '" ++
        id0 ++ "';"], opLog.o, st) := by
  have h := processOpLog_update_eq gen st opLog id0 diff schema table hop ho2 hid hdiff hns
  rw [h, hu, hd]
  rw [show ([] : List String) ++ [] = [] from rfl,
    update_empty_set_string ("UPDATE " ++ schema ++ "." ++ table) id0]

/-- Witness for the amended C5 at the concrete empty-diff fixture. -/
theorem claim_C5_witness :
    processOpLog gen0 newParser updRecEmptyDiff =
      (.ok ["UPDATE " ++ "test" ++ "." ++ "student" ++ " SET  WHERE _id = '" ++
        "idXYZ" ++ "';"], updRecEmptyDiff.o, newParser) :=
  claim_C5_empty_diff_emits gen0 newParser updRecEmptyDiff "idXYZ" []
    "test" "student" rfl rfl (by decide) rfl rfl rfl rfl

/-- C5 counterexample: an update whose `diff` object is empty does not return
a MalformedUpdate error; it succeeds and emits the UPDATE statement with an
empty SET list. -/
theorem claim_C5_counterexample :
    processOpLog gen0 newParser updRecEmptyDiff =
      (.ok ["UPDATE test.student SET  WHERE _id = 'idXYZ';"],
        updRecEmptyDiff.o, newParser) := rfl

/-! ### Insert machinery: shapes of emitted statements -/

theorem childBlock_nil : childBlock [] := ⟨[], rfl, by simp⟩

theorem childBlock_append {a b : List String} (ha : childBlock a)
    (hb : childBlock b) : childBlock (a ++ b) := by
  obtain ⟨ga, rfl, hga⟩ := ha
  obtain ⟨gb, rfl, hgb⟩ := hb
  refine ⟨ga ++ gb, (List.flatten_append ga gb).symm, ?_⟩
  intro g hg
  rcases List.mem_append.1 hg with hg | hg
  · exact hga g hg
  · exact hgb g hg

theorem childBlock_of_group {g : List String} (h : childGroup g) : childBlock g :=
  ⟨[g], by simp, by simpa using h⟩

theorem prepareInsertStatement_ok {schema table : String} {data : Data}
    {known : List String} {s : String}
    (h : prepareInsertStatement schema table data known = .ok s) :
    s = "INSERT INTO " ++ schema ++ "." ++ table ++ " (" ++
        String.intercalate ", " (sortStrings known) ++ ") VALUES (" ++
        String.intercalate ", " ((sortStrings known).map fun col =>
          match lookupD data col with
          | none => "NULL"
          | some v => formatValue v) ++ ");" := by
  unfold prepareInsertStatement at h
  split at h
  · simp at h
  · simp only [Except.ok.injEq] at h
    exact h.symm

theorem isInsertStmt_of_ok {schema table : String} {data : Data}
    {known : List String} {s : String}
    (h : prepareInsertStatement schema table data known = .ok s) :
    isInsertStmt s := by
  rw [prepareInsertStatement_ok h]
  unfold isInsertStmt
  simp only [String.append_assoc]
  exact ⟨_, rfl⟩

theorem prepareTableDDL_ok {schema table : String} {data : Data} {s : String}
    (h : prepareTableDDL schema table data = .ok s) :
    ∃ defs, typedColumnDefs data (sortStrings (keysD data)) = .ok defs ∧
      s = "CREATE TABLE " ++ schema ++ "." ++ table ++ " (" ++
        String.intercalate ", " defs ++ ");" := by
  unfold prepareTableDDL at h
  cases htc : typedColumnDefs data (sortStrings (keysD data)) with
  | error e => rw [htc] at h; simp at h
  | ok defs =>
    rw [htc] at h
    simp only [Except.ok.injEq] at h
    exact ⟨defs, rfl, h.symm⟩

theorem isCreateTableStmt_of_ok {schema table : String} {data : Data} {s : String}
    (h : prepareTableDDL schema table data = .ok s) :
    isCreateTableStmt s := by
  obtain ⟨defs, -, rfl⟩ := prepareTableDDL_ok h
  unfold isCreateTableStmt
  simp only [String.append_assoc]
  exact ⟨_, rfl⟩

theorem prepareNestedTableDDL_ok {schema table : String} {data : Data}
    {parentTable referenceTableId : String} {s : String}
    (h : prepareNestedTableDDL schema table data parentTable referenceTableId
      = .ok s) : isCreateTableStmt s := by
  unfold prepareNestedTableDDL at h
  cases htc : typedColumnDefs
      (upsert data (parentTable ++ "__id") (.str referenceTableId))
      (sortStrings (keysD data)) with
  | error e => rw [htc] at h; simp at h
  | ok defs =>
    rw [htc] at h
    simp only [Except.ok.injEq] at h
    rw [← h]
    unfold isCreateTableStmt
    simp only [String.append_assoc]
    exact ⟨_, rfl⟩

theorem prepareAlterStatement_ok {schema table : String} {newFields : Data}
    {s : String} (h : prepareAlterStatement schema table newFields = .ok s) :
    isAlterStmt s := by
  unfold prepareAlterStatement at h
  cases htc : typedColumnDefs newFields (sortStrings (keysD newFields)) with
  | error e => rw [htc] at h; simp at h
  | ok defs =>
    rw [htc] at h
    simp only [Except.ok.injEq] at h
    rw [← h]
    unfold isAlterStmt
    simp only [String.append_assoc]
    exact ⟨_, rfl⟩

theorem genNested_ok_group {gen : Nat → String} {st : PState}
    {schema table parentID parentTable : String} {v : Value}
    {stmts : List String} {v1 : Value} {st1 : PState}
    (h : generateTableDDLAndInsertForNestedObject gen st schema table parentID
      parentTable v = (.ok stmts, v1, st1)) : childGroup stmts := by
  unfold generateTableDDLAndInsertForNestedObject at h
  cases v with
  | obj m =>
    simp only at h
    split at h
    · split at h
      · simp at h
      · rename_i ins hins
        simp only [Prod.mk.injEq, GoResult.ok.injEq] at h
        exact .inr ⟨ins, h.1.symm, isInsertStmt_of_ok hins⟩
    · split at h
      · simp at h
      · rename_i tbl htbl
        split at h
        · simp at h
        · rename_i ins hins
          simp only [Prod.mk.injEq, GoResult.ok.injEq] at h
          exact .inl ⟨tbl, ins, h.1.symm, prepareNestedTableDDL_ok htbl,
            isInsertStmt_of_ok hins⟩
  | str s0 => simp at h
  | bool b => simp at h
  | num q => simp at h
  | arr l => simp at h
  | null => simp at h

theorem genArray_ok_block {gen : Nat → String}
    {schema table parentID parentTable : String} :
    ∀ {items : List Value} {st : PState} {stmts : List String}
      {vs : List Value} {st1 : PState},
      generateTableDDLAndInsertForArray gen st schema table parentID
        parentTable items = (.ok stmts, vs, st1) → childBlock stmts := by
  intro items
  induction items with
  | nil =>
    intro st stmts vs st1 h
    simp only [generateTableDDLAndInsertForArray, Prod.mk.injEq,
      GoResult.ok.injEq] at h
    rw [← h.1]
    exact childBlock_nil
  | cons item rest ih =>
    intro st stmts vs st1 h
    unfold generateTableDDLAndInsertForArray at h
    split at h
    · rename_i stmts1 v1 st2 hg
      split at h
      · rename_i stmts2 vs2 st3 hr
        simp only [Prod.mk.injEq, GoResult.ok.injEq] at h
        rw [← h.1]
        exact childBlock_append (childBlock_of_group (genNested_ok_group hg))
          (ih hr)
      · simp at h
      · simp at h
    · simp at h
    · simp at h

theorem nestedLoop_ok_block {gen : Nat → String} {schema table : String} :
    ∀ {fields : Data} {st : PState} {d : Data} {stmts : List String}
      {d1 : Data} {st1 : PState},
      nestedFieldsLoop gen st d schema table fields = (.ok stmts, d1, st1) →
      childBlock stmts := by
  intro fields
  induction fields with
  | nil =>
    intro st d stmts d1 st1 h
    simp only [nestedFieldsLoop, Prod.mk.injEq, GoResult.ok.injEq] at h
    rw [← h.1]
    exact childBlock_nil
  | cons p rest ih =>
    intro st d stmts d1 st1 h
    obtain ⟨field, nestedObj⟩ := p
    unfold nestedFieldsLoop at h
    split at h
    · rename_i parentID hid
      split at h
      · rename_i stmts1 v1 st2 hg
        split at h
        · rename_i stmts2 d2 st3 hr
          simp only [Prod.mk.injEq, GoResult.ok.injEq] at h
          rw [← h.1]
          exact childBlock_append
            (childBlock_of_group (genNested_ok_group hg)) (ih hr)
        · simp at h
        · simp at h
      · simp at h
      · simp at h
    · simp at h

theorem arrayLoop_ok_block {gen : Nat → String} {schema table : String} :
    ∀ {fields : List (String × List Value)} {st : PState} {d : Data}
      {stmts : List String} {d1 : Data} {st1 : PState},
      arrayFieldsLoop gen st d schema table fields = (.ok stmts, d1, st1) →
      childBlock stmts := by
  intro fields
  induction fields with
  | nil =>
    intro st d stmts d1 st1 h
    simp only [arrayFieldsLoop, Prod.mk.injEq, GoResult.ok.injEq] at h
    rw [← h.1]
    exact childBlock_nil
  | cons p rest ih =>
    intro st d stmts d1 st1 h
    obtain ⟨field, nestedArray⟩ := p
    unfold arrayFieldsLoop at h
    split at h
    · rename_i parentID hid
      split at h
      · rename_i stmts1 vs1 st2 hg
        split at h
        · rename_i stmts2 d2 st3 hr
          simp only [Prod.mk.injEq, GoResult.ok.injEq] at h
          rw [← h.1]
          exact childBlock_append (genArray_ok_block hg) (ih hr)
        · simp at h
        · simp at h
      · simp at h
      · simp at h
    · simp at h

/-- Master inversion lemma: the shape of every successful insert batch.  The
final INSERT is built over the known columns of the final state (the catalog
at the moment of emission) and the post-call document, and is the last
statement; on a first insert the batch opens with CREATE SCHEMA and the
parent CREATE TABLE, on a later insert with an optional ALTER TABLE; in both
cases the middle is a block of child-row groups. -/
theorem handleInsert_ok_shape {gen : Nat → String} {st : PState} {opLog : OpLog}
    {stmts : List String} {d1 : Data} {st1 : PState}
    (h : handleInsert gen st opLog = (.ok stmts, d1, st1)) :
    ∃ schema table ins,
      parseNamespace opLog.ns = .ok (schema, table) ∧
      prepareInsertStatement schema table d1 (getKnownColumns st1 opLog.ns)
        = .ok ins ∧
      stmts.getLast? = some ins ∧
      ((isDDLGenerated st opLog.ns = false ∧
         ∃ tbl mid,
           prepareTableDDL schema table (splitData opLog.o).1 = .ok tbl ∧
           childBlock mid ∧
           stmts = ("CREATE SCHEMA " ++ schema ++ ";") :: tbl ::
             (mid ++ [ins])) ∨
       (isDDLGenerated st opLog.ns = true ∧
         ∃ alt mid, childBlock mid ∧ (∀ a ∈ alt, isAlterStmt a) ∧
           stmts = alt ++ (mid ++ [ins]))) := by
  unfold handleInsert at h
  split at h
  · simp at h
  · rename_i schema table hns
    split at h
    · rename_i mainData nestedData arrayData hsplit
      split at h
      · -- known namespace: the ALTER branch
        rename_i hddl
        dsimp only at h
        split at h
        · simp at h
        · rename_i alterStmt halter
          split at h
          · rename_i stmts2 d2 st2 hnl
            split at h
            · rename_i stmts3 d3 st3 hal
              split at h
              · simp at h
              · rename_i ins hins
                simp only [Prod.mk.injEq, GoResult.ok.injEq] at h
                obtain ⟨hs, hd, hst⟩ := h
                subst hs hd hst
                refine ⟨schema, table, ins, hns, hins, ?_, .inr ⟨hddl, ?_⟩⟩
                · exact List.getLast?_concat _
                · refine ⟨alterStmt.toList, stmts2 ++ stmts3,
                    childBlock_append (nestedLoop_ok_block hnl)
                      (arrayLoop_ok_block hal), ?_, by simp [List.append_assoc]⟩
                  intro a ha
                  split at halter
                  · simp only [Except.ok.injEq] at halter
                    rw [← halter] at ha
                    simp at ha
                  · cases hpa : prepareAlterStatement schema table
                        (newFieldsOf st opLog.ns mainData) with
                    | error e => rw [hpa] at halter; simp [Except.map] at halter
                    | ok a0 =>
                      rw [hpa] at halter
                      simp only [Except.map, Except.ok.injEq] at halter
                      rw [← halter] at ha
                      simp only [Option.toList_some, List.mem_singleton] at ha
                      rw [ha]
                      exact prepareAlterStatement_ok hpa
            · simp at h
            · simp at h
          · simp at h
          · simp at h
      · -- first insert into the namespace
        rename_i hddl
        dsimp only at h
        split at h
        · simp at h
        · rename_i tbl htbl
          split at h
          · rename_i stmts2 d2 st2 hnl
            split at h
            · rename_i stmts3 d3 st3 hal
              split at h
              · simp at h
              · rename_i ins hins
                simp only [Prod.mk.injEq, GoResult.ok.injEq] at h
                obtain ⟨hs, hd, hst⟩ := h
                subst hs hd hst
                have hddlf : isDDLGenerated st opLog.ns = false := by
                  revert hddl
                  cases isDDLGenerated st opLog.ns <;> simp
                refine ⟨schema, table, ins, hns, hins, ?_,
                  .inl ⟨hddlf, tbl, stmts2 ++ stmts3, ?_, ?_, ?_⟩⟩
                · rw [show ("CREATE SCHEMA " ++ schema ++ ";") :: tbl ::
                    (stmts2 ++ stmts3 ++ [ins]) =
                    (("CREATE SCHEMA " ++ schema ++ ";") :: tbl ::
                      (stmts2 ++ stmts3)) ++ [ins] by simp]
                  exact List.getLast?_concat _
                · rw [hsplit]
                  exact htbl
                · exact childBlock_append (nestedLoop_ok_block hnl)
                    (arrayLoop_ok_block hal)
                · simp [List.append_assoc]
            · simp at h
            · simp at h
          · simp at h
          · simp at h


/-- Two strings with distinct 8-character heads stay distinct under any
suffixes. -/
theorem append_ne_of_ne_take8 {p1 p2 : String} (h8a : 8 ≤ p1.data.length)
    (h8b : 8 ≤ p2.data.length) (hne : p1.data.take 8 ≠ p2.data.take 8)
    (r1 r2 : String) : p1 ++ r1 ≠ p2 ++ r2 := by
  intro h
  apply hne
  have hd := congrArg String.data h
  rw [String.data_append, String.data_append] at hd
  have ht := congrArg (List.take 8) hd
  rwa [List.take_append_of_le_length h8a, List.take_append_of_le_length h8b]
    at ht

theorem createTable_not_createSchema {s : String} (h : isCreateTableStmt s) :
    ¬ isCreateSchemaStmt s := by
  obtain ⟨r, rfl⟩ := h
  rintro ⟨r2, he⟩
  exact append_ne_of_ne_take8 (by decide) (by decide) (by decide) r r2 he

theorem insert_not_createSchema {s : String} (h : isInsertStmt s) :
    ¬ isCreateSchemaStmt s := by
  obtain ⟨r, rfl⟩ := h
  rintro ⟨r2, he⟩
  exact append_ne_of_ne_take8 (by decide) (by decide) (by decide) r r2 he

theorem alter_not_createSchema {s : String} (h : isAlterStmt s) :
    ¬ isCreateSchemaStmt s := by
  obtain ⟨r, rfl⟩ := h
  rintro ⟨r2, he⟩
  exact append_ne_of_ne_take8 (by decide) (by decide) (by decide) r r2 he

theorem childBlock_not_createSchema {stmts : List String}
    (h : childBlock stmts) : ∀ s ∈ stmts, ¬ isCreateSchemaStmt s := by
  obtain ⟨groups, rfl, hg⟩ := h
  intro s hs
  obtain ⟨g, hgmem, hsg⟩ := List.mem_flatten.1 hs
  rcases hg g hgmem with ⟨c, i, rfl, hc, hi⟩ | ⟨i, rfl, hi⟩
  · simp only [List.mem_cons, List.mem_singleton, List.not_mem_nil,
      or_false] at hsg
    rcases hsg with rfl | rfl
    · exact createTable_not_createSchema hc
    · exact insert_not_createSchema hi
  · simp only [List.mem_singleton] at hsg
    exact hsg ▸ insert_not_createSchema hi

/-- A successful `prepareInsertStatement` emission opens with
`INSERT INTO <schema>.<table> (`. -/
theorem parentInsert_shape {schema table : String} {data : Data}
    {known : List String} {s : String}
    (h : prepareInsertStatement schema table data known = .ok s) :
    ∃ r, s = "INSERT INTO " ++ schema ++ "." ++ table ++ " (" ++ r := by
  rw [prepareInsertStatement_ok h]
  simp only [String.append_assoc]
  exact ⟨_, rfl⟩

/-- Reduction of the dispatcher to `handleInsert` on an insert record. -/
theorem processOpLog_insert {gen : Nat → String} {st : PState} {opLog : OpLog}
    (hop : opLog.op = "i") :
    processOpLog gen st opLog = handleInsert gen st opLog := by
  simp [processOpLog, hop]

/-- C1: a successful insert batch is ordered as documented: on a first insert
into a namespace the batch is CREATE SCHEMA, then the parent CREATE TABLE,
then a block of child-table groups (each child CREATE TABLE, when emitted,
immediately before that child's INSERTs), and the parent INSERT is the last
statement of the batch; on any successful insert the parent INSERT is last. -/
theorem claim_C1_insert_batch_order (gen : Nat → String) (st : PState)
    (opLog : OpLog) (stmts : List String) (d1 : Data) (st1 : PState)
    (hop : opLog.op = "i")
    (h : processOpLog gen st opLog = (.ok stmts, d1, st1)) :
    ∃ schema table,
      parseNamespace opLog.ns = .ok (schema, table) ∧
      (∃ ins, stmts.getLast? = some ins ∧
        ∃ r, ins = "INSERT INTO " ++ schema ++ "." ++ table ++ " (" ++ r) ∧
      (isDDLGenerated st opLog.ns = false →
        ∃ tbl mid ins,
          isCreateTableStmt tbl ∧ childBlock mid ∧
          (∃ r, ins = "INSERT INTO " ++ schema ++ "." ++ table ++ " (" ++ r) ∧
          stmts = ("CREATE SCHEMA " ++ schema ++ ";") :: tbl ::
            (mid ++ [ins])) := by
  rw [processOpLog_insert hop] at h
  obtain ⟨schema, table, ins, hns, hins, hlast, hshape⟩ := handleInsert_ok_shape h
  refine ⟨schema, table, hns, ⟨ins, hlast, parentInsert_shape hins⟩, ?_⟩
  intro hddl
  rcases hshape with ⟨-, tbl, mid, htbl, hmid, rfl⟩ | ⟨hddl2, -⟩
  · exact ⟨tbl, mid, ins, isCreateTableStmt_of_ok htbl, hmid,
      parentInsert_shape hins, rfl⟩
  · rw [hddl] at hddl2; cases hddl2

/-- Witness for C1 at the concrete first insert `insRecA`. -/
theorem claim_C1_witness :
    ∃ schema table,
      parseNamespace insRecA.ns = .ok (schema, table) ∧
      (∃ ins, (["CREATE SCHEMA test;",
        "CREATE TABLE test.a (_id VARCHAR(255) PRIMARY KEY);",
        "INSERT INTO test.a (_id) VALUES ('a1');"] : List String).getLast?
          = some ins ∧
        ∃ r, ins = "INSERT INTO " ++ schema ++ "." ++ table ++ " (" ++ r) ∧
      (isDDLGenerated newParser insRecA.ns = false →
        ∃ tbl mid ins,
          isCreateTableStmt tbl ∧ childBlock mid ∧
          (∃ r, ins = "INSERT INTO " ++ schema ++ "." ++ table ++ " (" ++ r) ∧
          ["CREATE SCHEMA test;",
            "CREATE TABLE test.a (_id VARCHAR(255) PRIMARY KEY);",
            "INSERT INTO test.a (_id) VALUES ('a1');"] =
            ("CREATE SCHEMA " ++ schema ++ ";") :: tbl :: (mid ++ [ins])) :=
  claim_C1_insert_batch_order gen0 newParser insRecA
    ["CREATE SCHEMA test;",
     "CREATE TABLE test.a (_id VARCHAR(255) PRIMARY KEY);",
     "INSERT INTO test.a (_id) VALUES ('a1');"]
    [("_id", .str "a1")] ⟨["test.a"], [("test.a", ["_id"])], 0⟩ rfl rfl

/-- C2: for a successful insert, the emitted INSERT's column list is the
ascending-sorted known-column set of the catalog at the moment of emission
(the final state, for that namespace), and a column with no value in the row
is rendered as the literal NULL. -/
theorem claim_C2_insert_columns (gen : Nat → String) (st : PState)
    (opLog : OpLog) (stmts : List String) (d1 : Data) (st1 : PState)
    (hop : opLog.op = "i")
    (h : processOpLog gen st opLog = (.ok stmts, d1, st1)) :
    ∃ schema table cols,
      parseNamespace opLog.ns = .ok (schema, table) ∧
      cols = sortStrings (getKnownColumns st1 opLog.ns) ∧
      cols.Pairwise strLe ∧
      cols.Perm (getKnownColumns st1 opLog.ns) ∧
      stmts.getLast? = some
        ("INSERT INTO " ++ schema ++ "." ++ table ++ " (" ++
          String.intercalate ", " cols ++ ") VALUES (" ++
          String.intercalate ", " (cols.map fun col =>
            match lookupD d1 col with
            | none => "NULL"
            | some v => formatValue v) ++ ");") := by
  rw [processOpLog_insert hop] at h
  obtain ⟨schema, table, ins, hns, hins, hlast, -⟩ := handleInsert_ok_shape h
  exact ⟨schema, table, sortStrings (getKnownColumns st1 opLog.ns), hns, rfl,
    sortStrings_sorted _, sortStrings_perm _,
    (prepareInsertStatement_ok hins) ▸ hlast⟩

/-- Witness for C2 at the concrete first insert `insRecA`. -/
theorem claim_C2_witness :
    ∃ schema table cols,
      parseNamespace insRecA.ns = .ok (schema, table) ∧
      cols = sortStrings (getKnownColumns
        (⟨["test.a"], [("test.a", ["_id"])], 0⟩ : PState) insRecA.ns) ∧
      cols.Pairwise strLe ∧
      cols.Perm (getKnownColumns
        (⟨["test.a"], [("test.a", ["_id"])], 0⟩ : PState) insRecA.ns) ∧
      (["CREATE SCHEMA test;",
        "CREATE TABLE test.a (_id VARCHAR(255) PRIMARY KEY);",
        "INSERT INTO test.a (_id) VALUES ('a1');"] : List String).getLast? =
        some ("INSERT INTO " ++ schema ++ "." ++ table ++ " (" ++
          String.intercalate ", " cols ++ ") VALUES (" ++
          String.intercalate ", " (cols.map fun col =>
            match lookupD [("_id", Value.str "a1")] col with
            | none => "NULL"
            | some v => formatValue v) ++ ");") :=
  claim_C2_insert_columns gen0 newParser insRecA
    ["CREATE SCHEMA test;",
     "CREATE TABLE test.a (_id VARCHAR(255) PRIMARY KEY);",
     "INSERT INTO test.a (_id) VALUES ('a1');"]
    [("_id", .str "a1")] ⟨["test.a"], [("test.a", ["_id"])], 0⟩ rfl rfl

/-- C3 amended: CREATE SCHEMA is emitted once per namespace, not once per
schema: a successful insert emits `CREATE SCHEMA <schema>;` (as the first
statement) exactly when its namespace has not yet had DDL generated, so two
first inserts into distinct namespaces sharing a schema each emit it, while
a repeat insert into a tracked namespace emits no CREATE SCHEMA at all. -/
theorem claim_C3_schema_per_namespace (gen : Nat → String) (st : PState)
    (opLog : OpLog) (stmts : List String) (d1 : Data) (st1 : PState)
    (hop : opLog.op = "i")
    (h : processOpLog gen st opLog = (.ok stmts, d1, st1)) :
    ∃ schema table, parseNamespace opLog.ns = .ok (schema, table) ∧
      (isDDLGenerated st opLog.ns = false →
        stmts.head? = some ("CREATE SCHEMA " ++ schema ++ ";")) ∧
      (isDDLGenerated st opLog.ns = true →
        ∀ s ∈ stmts, ¬ isCreateSchemaStmt s) := by
  rw [processOpLog_insert hop] at h
  obtain ⟨schema, table, ins, hns, hins, hlast, hshape⟩ := handleInsert_ok_shape h
  refine ⟨schema, table, hns, ?_, ?_⟩
  · intro hddl
    rcases hshape with ⟨-, tbl, mid, -, -, rfl⟩ | ⟨hddl2, -⟩
    · rfl
    · rw [hddl] at hddl2; cases hddl2
  · intro hddl
    rcases hshape with ⟨hddl2, -⟩ | ⟨-, alt, mid, hmid, halt, rfl⟩
    · rw [hddl] at hddl2; cases hddl2
    · intro s hs
      rcases List.mem_append.1 hs with hs | hs
      · exact alter_not_createSchema (halt s hs)
      · rcases List.mem_append.1 hs with hs | hs
        · exact childBlock_not_createSchema hmid s hs
        · simp only [List.mem_singleton] at hs
          exact hs ▸ insert_not_createSchema (isInsertStmt_of_ok hins)

/-- Witness for the amended C3 at the concrete first insert `insRecA`. -/
theorem claim_C3_witness :
    ∃ schema table, parseNamespace insRecA.ns = .ok (schema, table) ∧
      (isDDLGenerated newParser insRecA.ns = false →
        (["CREATE SCHEMA test;",
          "CREATE TABLE test.a (_id VARCHAR(255) PRIMARY KEY);",
          "INSERT INTO test.a (_id) VALUES ('a1');"] : List String).head? =
          some ("CREATE SCHEMA " ++ schema ++ ";")) ∧
      (isDDLGenerated newParser insRecA.ns = true →
        ∀ s ∈ (["CREATE SCHEMA test;",
          "CREATE TABLE test.a (_id VARCHAR(255) PRIMARY KEY);",
          "INSERT INTO test.a (_id) VALUES ('a1');"] : List String),
          ¬ isCreateSchemaStmt s) :=
  claim_C3_schema_per_namespace gen0 newParser insRecA
    ["CREATE SCHEMA test;",
     "CREATE TABLE test.a (_id VARCHAR(255) PRIMARY KEY);",
     "INSERT INTO test.a (_id) VALUES ('a1');"]
    [("_id", .str "a1")] ⟨["test.a"], [("test.a", ["_id"])], 0⟩ rfl rfl

/-- C3 counterexample: two inserts into the distinct namespaces `test.a` and
`test.b`, which share the schema `test`, both emit `CREATE SCHEMA test;` —
not only the first of the two. -/
theorem claim_C3_counterexample :
    ∃ l1 l2,
      (processOpLog gen0 newParser insRecA).1 = .ok l1 ∧
      (processOpLog gen0 (processOpLog gen0 newParser insRecA).2.2
        insRecB).1 = .ok l2 ∧
      "CREATE SCHEMA test;" ∈ l1 ∧ "CREATE SCHEMA test;" ∈ l2 ∧
      insRecA.ns ≠ insRecB.ns :=
  ⟨_, _, rfl, rfl, .head _, .head _, by decide⟩

/-! ### Scalar-sequence fields (C6) -/

theorem mem_keysD_of_lookup {d : Data} {f : String} {v : Value}
    (h : lookupD d f = some v) : f ∈ keysD d := by
  induction d with
  | nil => simp [lookupD] at h
  | cons p rest ih =>
    obtain ⟨k, w⟩ := p
    simp only [lookupD] at h
    by_cases hk : k = f
    · subst hk; simp [keysD]
    · rw [if_neg hk] at h
      simp only [keysD, List.map_cons, List.mem_cons]
      exact .inr (ih h)

theorem splitData_main_lookup {f : String} {x : Value} {xs : List Value}
    (hx : ∀ m, x ≠ Value.obj m) :
    ∀ {d : Data}, lookupD d f = some (.arr (x :: xs)) →
      lookupD (splitData d).1 f = some (.arr (x :: xs)) := by
  intro d
  induction d with
  | nil => intro h; simp [lookupD] at h
  | cons p rest ih =>
    intro h
    obtain ⟨k, v⟩ := p
    simp only [lookupD] at h
    rcases hsr : splitData rest with ⟨m, n, a⟩
    by_cases hk : k = f
    · rw [if_pos hk] at h
      injection h with h
      subst h
      cases x with
      | obj o => exact absurd rfl (hx o)
      | str s0 => simp [splitData, hsr, lookupD, hk]
      | bool b => simp [splitData, hsr, lookupD, hk]
      | num q => simp [splitData, hsr, lookupD, hk]
      | arr l => simp [splitData, hsr, lookupD, hk]
      | null => simp [splitData, hsr, lookupD, hk]
    · rw [if_neg hk] at h
      have hr := ih h
      rw [hsr] at hr
      cases v with
      | obj o => simpa [splitData, hsr] using hr
      | str s0 => simpa [splitData, hsr, lookupD, hk] using hr
      | bool b => simpa [splitData, hsr, lookupD, hk] using hr
      | num q => simpa [splitData, hsr, lookupD, hk] using hr
      | null => simpa [splitData, hsr, lookupD, hk] using hr
      | arr l =>
        cases l with
        | nil => simpa [splitData, hsr] using hr
        | cons y ys =>
          cases y with
          | obj o => simpa [splitData, hsr] using hr
          | str s0 => simpa [splitData, hsr, lookupD, hk] using hr
          | bool b => simpa [splitData, hsr, lookupD, hk] using hr
          | num q => simpa [splitData, hsr, lookupD, hk] using hr
          | arr l2 => simpa [splitData, hsr, lookupD, hk] using hr
          | null => simpa [splitData, hsr, lookupD, hk] using hr

theorem getSqlType_error_shape {f : String} {v : Value} {e : GoErr}
    (h : getSqlType f v = .error e) : e = .typeErr f v := by
  unfold getSqlType at h
  split at h
  · simp at h
  · split at h <;> simp_all

theorem typedColumnDefs_error_of_bad {data : Data} {f : String} {x : Value}
    {xs : List Value} (hid : f ≠ "_id")
    (hf : lookupD data f = some (.arr (x :: xs))) :
    ∀ {cols : List String}, f ∈ cols →
      ∃ g v, typedColumnDefs data cols = .error (.typeErr g v) := by
  intro cols
  induction cols with
  | nil => intro h; simp at h
  | cons c rest ih =>
    intro hmem
    unfold typedColumnDefs
    cases hc : getSqlType c ((lookupD data c).getD .null) with
    | error e =>
      refine ⟨c, (lookupD data c).getD .null, ?_⟩
      simp [getSqlType_error_shape hc]
    | ok t =>
      rcases List.mem_cons.1 hmem with rfl | hmem2
      · rw [hf] at hc
        simp only [Option.getD_some] at hc
        unfold getSqlType at hc
        rw [if_neg hid] at hc
        simp at hc
      · obtain ⟨g, v, hgv⟩ := ih hmem2
        exact ⟨g, v, by simp [hgv]⟩

theorem prepareTableDDL_error_of_bad {schema table : String} {data : Data}
    {f : String} {x : Value} {xs : List Value} (hid : f ≠ "_id")
    (hx : ∀ m, x ≠ Value.obj m)
    (hf : lookupD data f = some (.arr (x :: xs))) :
    ∃ g v, prepareTableDDL schema table (splitData data).1 =
      .error (.typeErr g v) := by
  have hmain := splitData_main_lookup hx hf
  have hmem : f ∈ sortStrings (keysD (splitData data).1) :=
    ((sortStrings_perm _).mem_iff).2 (mem_keysD_of_lookup hmain)
  obtain ⟨g, v, hgv⟩ := typedColumnDefs_error_of_bad hid hmain hmem
  refine ⟨g, v, ?_⟩
  unfold prepareTableDDL
  rw [hgv]

/-- C6 amended: an insert whose data contains a field holding a non-empty
sequence of scalars fails with a type-conversion error when that field is not
already a known column — in particular on the first insert into the
namespace, where the whole document is typed for CREATE TABLE.  (When the
column is already known, type resolution is skipped and the insert
succeeds — see the counterexample.) -/
theorem claim_C6_scalar_array_first_insert (gen : Nat → String) (st : PState)
    (opLog : OpLog) (f : String) (x : Value) (xs : List Value)
    (schema table : String)
    (hop : opLog.op = "i")
    (hns : parseNamespace opLog.ns = .ok (schema, table))
    (hddl : isDDLGenerated st opLog.ns = false)
    (hf : lookupD opLog.o f = some (.arr (x :: xs)))
    (hx : ∀ m, x ≠ Value.obj m)
    (hid : f ≠ "_id") :
    ∃ g v, (processOpLog gen st opLog).1 = .err (.typeErr g v) := by
  obtain ⟨g, v, hgv⟩ :=
    @prepareTableDDL_error_of_bad schema table opLog.o f x xs hid hx hf
  refine ⟨g, v, ?_⟩
  rw [processOpLog_insert hop]
  rcases hsd : splitData opLog.o with ⟨mainD, nestedD, arrayD⟩
  rw [hsd] at hgv
  simp [handleInsert, hns, hsd, hddl, hgv]

/-- Witness for the amended C6: a first insert carrying a non-empty scalar
array fails with a type-conversion error. -/
theorem claim_C6_witness :
    ∃ g v, (processOpLog gen0 newParser
      { op := "i", ns := "test.student",
        o := [("_id", .str "a1"), ("x", .arr [.str "p"])], o2 := none }).1 =
      .err (.typeErr g v) :=
  claim_C6_scalar_array_first_insert gen0 newParser
    { op := "i", ns := "test.student",
      o := [("_id", .str "a1"), ("x", .arr [.str "p"])], o2 := none }
    "x" (.str "p") [] "test" "student" rfl rfl rfl rfl
    (fun m h => nomatch h) (by decide)

/-- The first insert of the C6 counterexample: establishes `x` as a known
string column of `test.student`. -/
def recC6a : OpLog :=
  { op := "i", ns := "test.student",
    o := [("_id", .str "a1"), ("x", .str "s")], o2 := none }

/-- The second insert of the C6 counterexample: the known column `x` now
holds a non-empty sequence of scalars. -/
def recC6b : OpLog :=
  { op := "i", ns := "test.student",
    o := [("_id", .str "b2"), ("x", .arr [.str "p", .str "q"])], o2 := none }

/-- C6 counterexample: an insert whose data contains a non-empty sequence of
scalars under a column that is already known does NOT fail: it succeeds and
emits the INSERT, formatting the sequence by default stringification. -/
theorem claim_C6_counterexample :
    lookupD recC6b.o "x" = some (.arr [.str "p", .str "q"]) ∧
    (processOpLog gen0 (processOpLog gen0 newParser recC6a).2.2 recC6b).1 =
      .ok ["INSERT INTO test.student (_id, x) VALUES ('b2', '[p q]');"] :=
  ⟨rfl, rfl⟩

/-! ### Missing or non-string `_id` with child rows (C9) -/

theorem typedColumnDefs_error_shape {data : Data} {e : GoErr} :
    ∀ {cols : List String}, typedColumnDefs data cols = .error e →
      ∃ g v, e = .typeErr g v := by
  intro cols
  induction cols with
  | nil => intro h; simp [typedColumnDefs] at h
  | cons c rest ih =>
    intro h
    unfold typedColumnDefs at h
    cases hc : getSqlType c ((lookupD data c).getD .null) with
    | error e0 =>
      rw [hc] at h
      simp only [Except.error.injEq] at h
      exact ⟨c, (lookupD data c).getD .null, h ▸ getSqlType_error_shape hc⟩
    | ok t =>
      rw [hc] at h
      cases hr : typedColumnDefs data rest with
      | error e1 =>
        rw [hr] at h
        simp only [Except.error.injEq] at h
        rw [h] at hr
        exact ih hr
      | ok defs => rw [hr] at h; simp at h

theorem prepareTableDDL_error_shape {schema table : String} {data : Data}
    {e : GoErr} (h : prepareTableDDL schema table data = .error e) :
    ∃ g v, e = .typeErr g v := by
  unfold prepareTableDDL at h
  cases htc : typedColumnDefs data (sortStrings (keysD data)) with
  | error e0 =>
    rw [htc] at h
    simp only [Except.error.injEq] at h
    exact h ▸ typedColumnDefs_error_shape htc
  | ok defs => rw [htc] at h; simp at h

theorem prepareAlterStatement_error_shape {schema table : String}
    {newFields : Data} {e : GoErr}
    (h : prepareAlterStatement schema table newFields = .error e) :
    ∃ g v, e = .typeErr g v := by
  unfold prepareAlterStatement at h
  cases htc : typedColumnDefs newFields (sortStrings (keysD newFields)) with
  | error e0 =>
    rw [htc] at h
    simp only [Except.error.injEq] at h
    exact h ▸ typedColumnDefs_error_shape htc
  | ok defs => rw [htc] at h; simp at h

/-- The per-iteration type assertion `opLog.Data["_id"].(string)`: with the
nested-field list non-empty and no string `_id`, the loop panics at once. -/
theorem nestedLoop_panics (gen : Nat → String) (st : PState) (d : Data)
    (schema table : String) (f : String) (v : Value) (rest : Data)
    (hnostr : ∀ s, lookupD d "_id" ≠ some (.str s)) :
    nestedFieldsLoop gen st d schema table ((f, v) :: rest) =
      (.panicked, d, st) := by
  unfold nestedFieldsLoop
  cases hid : lookupD d "_id" with
  | none => rfl
  | some v0 =>
    cases v0 with
    | str s => exact absurd hid (hnostr s)
    | bool b => rfl
    | num q => rfl
    | obj m => rfl
    | arr l => rfl
    | null => rfl

/-- Same for the array-field loop. -/
theorem arrayLoop_panics (gen : Nat → String) (st : PState) (d : Data)
    (schema table : String) (f : String) (l : List Value)
    (rest : List (String × List Value))
    (hnostr : ∀ s, lookupD d "_id" ≠ some (.str s)) :
    arrayFieldsLoop gen st d schema table ((f, l) :: rest) =
      (.panicked, d, st) := by
  unfold arrayFieldsLoop
  cases hid : lookupD d "_id" with
  | none => rfl
  | some v0 =>
    cases v0 with
    | str s => exact absurd hid (hnostr s)
    | bool b => rfl
    | num q => rfl
    | obj m => rfl
    | arr l2 => rfl
    | null => rfl

/-- C9 amended: an insert whose data contains a nested object or a non-empty
array of objects, but whose `_id` is absent or not a string, never returns
successfully: it terminates in a runtime panic at the `_id` type assertion,
unless a main field already fails type conversion first, in which case that
type-conversion error is returned. -/
theorem claim_C9_panic_without_string_id (gen : Nat → String) (st : PState)
    (opLog : OpLog) (schema table : String)
    (hop : opLog.op = "i")
    (hns : parseNamespace opLog.ns = .ok (schema, table))
    (hnostr : ∀ s, lookupD opLog.o "_id" ≠ some (.str s))
    (hnest : (splitData opLog.o).2.1 ≠ [] ∨ (splitData opLog.o).2.2 ≠ []) :
    (processOpLog gen st opLog).1 = .panicked ∨
    ∃ g v, (processOpLog gen st opLog).1 = .err (.typeErr g v) := by
  rw [processOpLog_insert hop]
  rcases hsd : splitData opLog.o with ⟨mainD, nestedD, arrayD⟩
  rw [hsd] at hnest
  simp only at hnest
  cases hddl : isDDLGenerated st opLog.ns with
  | false =>
    cases htd : prepareTableDDL schema table mainD with
    | error e =>
      obtain ⟨g, v, hgv⟩ := prepareTableDDL_error_shape htd
      right
      exact ⟨g, v, by simp [handleInsert, hns, hsd, hddl, htd, hgv]⟩
    | ok tbl =>
      left
      cases nestedD with
      | cons p rest =>
        obtain ⟨f, v⟩ := p
        simp [handleInsert, hns, hsd, hddl, htd,
          nestedLoop_panics gen st opLog.o schema table f v rest hnostr]
      | nil =>
        rcases hnest with hn | ha
        · exact absurd rfl hn
        · cases arrayD with
          | nil => exact absurd rfl ha
          | cons p rest =>
            obtain ⟨f, l⟩ := p
            simp [handleInsert, hns, hsd, hddl, htd, nestedFieldsLoop,
              arrayLoop_panics gen st opLog.o schema table f l rest hnostr]
  | true =>
    cases hne : (newFieldsOf st opLog.ns mainD).isEmpty with
    | true =>
      left
      cases nestedD with
      | cons p rest =>
        obtain ⟨f, v⟩ := p
        simp [handleInsert, hns, hsd, hddl, hne,
          nestedLoop_panics gen st opLog.o schema table f v rest hnostr]
      | nil =>
        rcases hnest with hn | ha
        · exact absurd rfl hn
        · cases arrayD with
          | nil => exact absurd rfl ha
          | cons p rest =>
            obtain ⟨f, l⟩ := p
            simp [handleInsert, hns, hsd, hddl, hne, nestedFieldsLoop,
              arrayLoop_panics gen st opLog.o schema table f l rest hnostr]
    | false =>
      cases hpa : prepareAlterStatement schema table
          (newFieldsOf st opLog.ns mainD) with
      | error e =>
        obtain ⟨g, v, hgv⟩ := prepareAlterStatement_error_shape hpa
        right
        exact ⟨g, v, by simp [handleInsert, hns, hsd, hddl, hne, hpa,
          Except.map, hgv]⟩
      | ok a =>
        left
        cases nestedD with
        | cons p rest =>
          obtain ⟨f, v⟩ := p
          simp [handleInsert, hns, hsd, hddl, hne, hpa, Except.map,
            nestedLoop_panics gen
              (updateColumnsTracker st opLog.ns (newFieldsOf st opLog.ns mainD))
              opLog.o schema table f v rest hnostr]
        | nil =>
          rcases hnest with hn | ha
          · exact absurd rfl hn
          · cases arrayD with
            | nil => exact absurd rfl ha
            | cons p rest =>
              obtain ⟨f, l⟩ := p
              simp [handleInsert, hns, hsd, hddl, hne, hpa, Except.map,
                nestedFieldsLoop,
                arrayLoop_panics gen
                  (updateColumnsTracker st opLog.ns
                    (newFieldsOf st opLog.ns mainD))
                  opLog.o schema table f l rest hnostr]

/-- A record with a nested object but no `_id` whose main fields all
type-resolve: the `_id` assertion panics. -/
def recC9panic : OpLog :=
  { op := "i", ns := "test.student",
    o := [("x", .str "ok"), ("phone", .obj [("personal", .str "1")])],
    o2 := none }

/-- Witness for the amended C9 at `recC9panic`. -/
theorem claim_C9_witness :
    (processOpLog gen0 newParser recC9panic).1 = .panicked ∨
    ∃ g v, (processOpLog gen0 newParser recC9panic).1 = .err (.typeErr g v) :=
  claim_C9_panic_without_string_id gen0 newParser recC9panic "test" "student"
    rfl rfl
    (fun s h => by
      rw [show lookupD recC9panic.o "_id" = none from rfl] at h
      exact Option.noConfusion h)
    (.inl (fun h => by
      rw [show (splitData recC9panic.o).2.1 =
        [("phone", .obj [("personal", .str "1")])] from rfl] at h
      exact List.noConfusion h))

/-- A record with a nested object, no `_id`, and a main field (`null`) that
fails type conversion. -/
def recC9err : OpLog :=
  { op := "i", ns := "test.student",
    o := [("x", .null), ("phone", .obj [("personal", .str "1")])],
    o2 := none }

/-- C9 counterexample: with a nested object present and `_id` absent, the
record does not panic when a main field fails type conversion first — the
process returns that error value instead. -/
theorem claim_C9_counterexample :
    (processOpLog gen0 newParser recC9err).1 = .err (.typeErr "x" .null) ∧
    (processOpLog gen0 newParser recC9err).1 ≠ .panicked := by
  refine ⟨rfl, ?_⟩
  intro h
  rw [show (processOpLog gen0 newParser recC9err).1 =
    .err (.typeErr "x" .null) from rfl] at h
  exact GoResult.noConfusion h

/-! ### Catalog-state lemmas and non-atomicity (C10) -/

theorem lookup_setCols_self (l : List (String × List String)) (ns : String)
    (cols : List String) : (setCols l ns cols).lookup ns = some cols := by
  induction l with
  | nil => simp [setCols, List.lookup]
  | cons p rest ih =>
    obtain ⟨k, v⟩ := p
    by_cases hk : k = ns
    · simp [setCols, hk, List.lookup]
    · simp only [setCols, if_neg hk, List.lookup]
      have hbeq : (ns == k) = false := beq_eq_false_iff_ne.2 (fun h => hk h.symm)
      rw [hbeq]
      exact ih

theorem getKnownColumns_init (st : PState) (ns : String) (d : Data) :
    getKnownColumns (initializeColumnTracker st ns d) ns = keysD d := by
  simp [getKnownColumns, initializeColumnTracker, lookup_setCols_self]

theorem isDDL_mark (st : PState) (ns : String) :
    isDDLGenerated (markDDLGenerated st ns) ns = true := by
  unfold isDDLGenerated markDDLGenerated
  by_cases hc : st.ddlTracker.contains ns = true
  · rw [if_pos hc]; exact hc
  · rw [if_neg hc]
    show (ns :: st.ddlTracker).contains ns = true
    simp [List.contains_cons]

theorem isDDL_init (st : PState) (ns ns2 : String) (d : Data) :
    isDDLGenerated (initializeColumnTracker st ns d) ns2 =
      isDDLGenerated st ns2 := rfl

theorem filter_not_contains_nil (d : Data) :
    (d.filter fun p => !(([] : List String).contains p.1)) = d := by
  induction d with
  | nil => rfl
  | cons p rest ih => simp [List.filter, ih]

theorem filter_keys_not_contains_nil (l : List String) :
    (l.filter fun f => !(([] : List String).contains f)) = l := by
  induction l with
  | nil => rfl
  | cons f rest ih => simp [List.filter, ih]

theorem exists_insert_ok (schema table : String) (data : Data)
    (known : List String) (hne : data ≠ []) :
    ∃ s, prepareInsertStatement schema table data known = .ok s := by
  have he : data.isEmpty = false := by
    cases data with
    | nil => exact absurd rfl hne
    | cons p rest => rfl
  unfold prepareInsertStatement
  rw [he]
  exact ⟨_, rfl⟩

/-- C10: process is not atomic on error.  A first insert with empty data
returns the MissingData error, yet the catalog has already been mutated: the
namespace is marked DDL-generated with an empty column set.  A subsequent
valid flat insert into the same namespace therefore emits no CREATE SCHEMA
and no CREATE TABLE — only an ALTER TABLE ADD listing every column of its
data, followed by the INSERT. -/
theorem claim_C10_non_atomic (gen : Nat → String) (st : PState)
    (o1 o2 : OpLog) (d2 : Data) (defs : List String) (schema table : String)
    (hop1 : o1.op = "i") (hns : parseNamespace o1.ns = .ok (schema, table))
    (hddl : isDDLGenerated st o1.ns = false) (hempty : o1.o = [])
    (hop2 : o2.op = "i") (hsame : o2.ns = o1.ns) (hd2 : o2.o = d2)
    (hne : d2 ≠ []) (hsplit : splitData d2 = (d2, [], []))
    (hdefs : typedColumnDefs d2 (sortStrings (keysD d2)) = .ok defs) :
    ∃ st1,
      processOpLog gen st o1 = (.err .missingData, [], st1) ∧
      isDDLGenerated st1 o1.ns = true ∧
      getKnownColumns st1 o1.ns = [] ∧
      ∃ ins st2,
        prepareInsertStatement schema table d2 (keysD d2) = .ok ins ∧
        processOpLog gen st1 o2 =
          (.ok ["ALTER TABLE " ++ schema ++ "." ++ table ++ " ADD " ++
            String.intercalate ", " defs ++ ";", ins], d2, st2) := by
  refine ⟨initializeColumnTracker (markDDLGenerated st o1.ns) o1.ns [],
    ?_, ?_, ?_, ?_⟩
  · rw [processOpLog_insert hop1]
    simp [handleInsert, hns, hempty, hddl, splitData, prepareTableDDL,
      typedColumnDefs, sortStrings, keysD, nestedFieldsLoop, arrayFieldsLoop,
      prepareInsertStatement]
  · rw [isDDL_init, isDDL_mark]
  · rw [getKnownColumns_init]
    rfl
  · have hkc : getKnownColumns
        (initializeColumnTracker (markDDLGenerated st o1.ns) o1.ns []) o1.ns
        = [] := by rw [getKnownColumns_init]; rfl
    have hnf : newFieldsOf
        (initializeColumnTracker (markDDLGenerated st o1.ns) o1.ns []) o1.ns d2
        = d2 := by
      unfold newFieldsOf
      rw [hkc]
      exact filter_not_contains_nil d2
    have hnh : d2.isEmpty = false := by
      cases d2 with
      | nil => exact absurd rfl hne
      | cons p rest => rfl
    have hupd : getKnownColumns
        (updateColumnsTracker
          (initializeColumnTracker (markDDLGenerated st o1.ns) o1.ns [])
          o1.ns d2) o1.ns = keysD d2 := by
      unfold updateColumnsTracker getKnownColumns
      simp only [initializeColumnTracker]
      rw [lookup_setCols_self]
      simp only [lookup_setCols_self, keysD, List.map_nil, Option.getD_some]
      rw [List.nil_append]
      exact filter_keys_not_contains_nil _
    obtain ⟨ins, hins⟩ := exists_insert_ok schema table d2 (keysD d2) hne
    refine ⟨ins, updateColumnsTracker
      (initializeColumnTracker (markDDLGenerated st o1.ns) o1.ns [])
      o1.ns d2, hins, ?_⟩
    rw [processOpLog_insert hop2]
    have hins2 : prepareInsertStatement schema table d2
        (getKnownColumns
          (updateColumnsTracker
            (initializeColumnTracker (markDDLGenerated st o1.ns) o1.ns [])
            o1.ns d2) o1.ns) = .ok ins := by rw [hupd]; exact hins
    simp [handleInsert, hsame, hns, hd2, hsplit, isDDL_init, isDDL_mark,
      hnf, hnh, prepareAlterStatement, hdefs, Except.map, nestedFieldsLoop,
      arrayFieldsLoop, hins2]

/-- An insert with empty data (first record of the C10 scenario). -/
def recTen1 : OpLog :=
  { op := "i", ns := "test.student", o := [], o2 := none }

/-- A subsequent valid flat insert into the same namespace. -/
def recTen2 : OpLog :=
  { op := "i", ns := "test.student",
    o := [("_id", .str "a1"), ("name", .str "n")], o2 := none }

/-- Witness for C10 at the concrete two-record scenario. -/
theorem claim_C10_witness :
    ∃ st1,
      processOpLog gen0 newParser recTen1 = (.err .missingData, [], st1) ∧
      isDDLGenerated st1 recTen1.ns = true ∧
      getKnownColumns st1 recTen1.ns = [] ∧
      ∃ ins st2,
        prepareInsertStatement "test" "student" recTen2.o (keysD recTen2.o)
          = .ok ins ∧
        processOpLog gen0 st1 recTen2 =
          (.ok ["ALTER TABLE " ++ "test" ++ "." ++ "student" ++ " ADD " ++
            String.intercalate ", "
              ["_id VARCHAR(255) PRIMARY KEY", "name VARCHAR(255)"] ++ ";",
            ins], recTen2.o, st2) :=
  claim_C10_non_atomic gen0 newParser recTen1 recTen2 recTen2.o
    ["_id VARCHAR(255) PRIMARY KEY", "name VARCHAR(255)"] "test" "student"
    rfl rfl rfl rfl rfl rfl rfl (fun h => List.noConfusion h) rfl rfl

/-! ### In-place augmentation of nested objects (C8) -/

theorem lookupD_upsert_self (d : Data) (f : String) (v : Value) :
    lookupD (upsert d f v) f = some v := by
  induction d with
  | nil => simp [upsert, lookupD]
  | cons p rest ih =>
    obtain ⟨k, w⟩ := p
    by_cases hk : k = f
    · simp [upsert, hk, lookupD]
    · simp [upsert, hk, lookupD, ih]

theorem lookupD_upsert_ne (d : Data) {g f : String} (v : Value) (h : g ≠ f) :
    lookupD (upsert d g v) f = lookupD d f := by
  induction d with
  | nil => simp [upsert, lookupD, h]
  | cons p rest ih =>
    obtain ⟨k, w⟩ := p
    by_cases hk : k = g
    · subst hk
      simp [upsert, lookupD, h]
    · simp [upsert, hk, lookupD, ih]

theorem genNested_ok_value {gen : Nat → String} {st : PState}
    {schema table parentID parentTable : String} {v : Value}
    {stmts : List String} {v1 : Value} {st1 : PState}
    (h : generateTableDDLAndInsertForNestedObject gen st schema table parentID
      parentTable v = (.ok stmts, v1, st1)) :
    ∃ m, v = .obj m ∧
      v1 = .obj (upsert (upsert m "_id" (.str (gen st.uuidCount)))
        (parentTable ++ "__id") (.str parentID)) := by
  unfold generateTableDDLAndInsertForNestedObject at h
  cases v with
  | obj m =>
    refine ⟨m, rfl, ?_⟩
    simp only at h
    split at h
    · split at h
      · simp at h
      · simp only [Prod.mk.injEq, GoResult.ok.injEq] at h
        exact h.2.1.symm
    · split at h
      · simp at h
      · split at h
        · simp at h
        · simp only [Prod.mk.injEq, GoResult.ok.injEq] at h
          exact h.2.1.symm
  | str s0 => simp at h
  | bool b => simp at h
  | num q => simp at h
  | arr l => simp at h
  | null => simp at h

theorem splitData_nested_mem {f : String} {m : List (String × Value)} :
    ∀ {d : Data}, lookupD d f = some (.obj m) →
      (f, Value.obj m) ∈ (splitData d).2.1 := by
  intro d
  induction d with
  | nil => intro h; simp [lookupD] at h
  | cons p rest ih =>
    intro h
    obtain ⟨k, v⟩ := p
    simp only [lookupD] at h
    rcases hsr : splitData rest with ⟨mn, n, a⟩
    by_cases hk : k = f
    · rw [if_pos hk] at h
      injection h with h
      subst h hk
      simp [splitData, hsr]
    · rw [if_neg hk] at h
      have hr := ih h
      rw [hsr] at hr
      cases v with
      | obj o => simp only [splitData, hsr]; exact .tail _ hr
      | str s0 => simpa [splitData, hsr] using hr
      | bool b => simpa [splitData, hsr] using hr
      | num q => simpa [splitData, hsr] using hr
      | null => simpa [splitData, hsr] using hr
      | arr l =>
        cases l with
        | nil => simpa [splitData, hsr] using hr
        | cons y ys =>
          cases y with
          | obj o => simpa [splitData, hsr] using hr
          | str s0 => simpa [splitData, hsr] using hr
          | bool b => simpa [splitData, hsr] using hr
          | num q => simpa [splitData, hsr] using hr
          | arr l2 => simpa [splitData, hsr] using hr
          | null => simpa [splitData, hsr] using hr

theorem splitData_keys_sublists : ∀ (d : Data),
    (keysD (splitData d).2.1).Sublist (keysD d) ∧
    ((splitData d).2.2.map Prod.fst).Sublist (keysD d) := by
  intro d
  induction d with
  | nil => exact ⟨List.Sublist.refl _, List.Sublist.refl _⟩
  | cons p rest ih =>
    obtain ⟨k, v⟩ := p
    rcases hsr : splitData rest with ⟨mn, n, a⟩
    rw [hsr] at ih
    cases v with
    | obj o =>
      simp only [splitData, hsr, keysD, List.map_cons]
      exact ⟨List.Sublist.cons₂ k ih.1, List.Sublist.cons k ih.2⟩
    | str s0 =>
      simp only [splitData, hsr, keysD, List.map_cons]
      exact ⟨List.Sublist.cons k ih.1, List.Sublist.cons k ih.2⟩
    | bool b =>
      simp only [splitData, hsr, keysD, List.map_cons]
      exact ⟨List.Sublist.cons k ih.1, List.Sublist.cons k ih.2⟩
    | num q =>
      simp only [splitData, hsr, keysD, List.map_cons]
      exact ⟨List.Sublist.cons k ih.1, List.Sublist.cons k ih.2⟩
    | null =>
      simp only [splitData, hsr, keysD, List.map_cons]
      exact ⟨List.Sublist.cons k ih.1, List.Sublist.cons k ih.2⟩
    | arr l =>
      cases l with
      | nil =>
        simp only [splitData, hsr, keysD, List.map_cons]
        exact ⟨List.Sublist.cons k ih.1, List.Sublist.cons k ih.2⟩
      | cons y ys =>
        cases y with
        | obj o =>
          simp only [splitData, hsr, keysD, List.map_cons]
          exact ⟨List.Sublist.cons k ih.1, List.Sublist.cons₂ k ih.2⟩
        | str s0 =>
          simp only [splitData, hsr, keysD, List.map_cons]
          exact ⟨List.Sublist.cons k ih.1, List.Sublist.cons k ih.2⟩
        | bool b =>
          simp only [splitData, hsr, keysD, List.map_cons]
          exact ⟨List.Sublist.cons k ih.1, List.Sublist.cons k ih.2⟩
        | num q =>
          simp only [splitData, hsr, keysD, List.map_cons]
          exact ⟨List.Sublist.cons k ih.1, List.Sublist.cons k ih.2⟩
        | arr l2 =>
          simp only [splitData, hsr, keysD, List.map_cons]
          exact ⟨List.Sublist.cons k ih.1, List.Sublist.cons k ih.2⟩
        | null =>
          simp only [splitData, hsr, keysD, List.map_cons]
          exact ⟨List.Sublist.cons k ih.1, List.Sublist.cons k ih.2⟩

theorem splitData_disjoint :
    ∀ {d : Data}, (keysD d).Nodup → ∀ f : String,
      f ∈ keysD (splitData d).2.1 → f ∉ (splitData d).2.2.map Prod.fst := by
  intro d
  induction d with
  | nil => intro _ f hf; simp [splitData, keysD] at hf
  | cons p rest ih =>
    intro hnd f hf
    obtain ⟨k, v⟩ := p
    simp only [keysD, List.map_cons, List.nodup_cons] at hnd
    obtain ⟨hkrest, hndrest⟩ := hnd
    rcases hsr : splitData rest with ⟨mn, n, a⟩
    have iha := ih hndrest
    have hsub := splitData_keys_sublists rest
    rw [hsr] at hsub iha
    cases v with
    | obj o =>
      simp only [splitData, hsr] at hf ⊢
      simp only [keysD, List.map_cons, List.mem_cons] at hf
      rcases hf with rfl | hf
      · exact fun hmem => hkrest (hsub.2.mem hmem)
      · exact iha f hf
    | str s0 => simp only [splitData, hsr] at hf ⊢; exact iha f hf
    | bool b => simp only [splitData, hsr] at hf ⊢; exact iha f hf
    | num q => simp only [splitData, hsr] at hf ⊢; exact iha f hf
    | null => simp only [splitData, hsr] at hf ⊢; exact iha f hf
    | arr l =>
      cases l with
      | nil => simp only [splitData, hsr] at hf ⊢; exact iha f hf
      | cons y ys =>
        cases y with
        | obj o =>
          simp only [splitData, hsr] at hf ⊢
          simp only [List.map_cons, List.mem_cons, not_or]
          refine ⟨?_, iha f hf⟩
          intro hkf
          exact hkrest (hsub.1.mem (hkf ▸ hf))
        | str s0 => simp only [splitData, hsr] at hf ⊢; exact iha f hf
        | bool b => simp only [splitData, hsr] at hf ⊢; exact iha f hf
        | num q => simp only [splitData, hsr] at hf ⊢; exact iha f hf
        | arr l2 => simp only [splitData, hsr] at hf ⊢; exact iha f hf
        | null => simp only [splitData, hsr] at hf ⊢; exact iha f hf

theorem splitData_id_not_nested :
    ∀ {d : Data} {pid : String}, lookupD d "_id" = some (.str pid) →
      (keysD d).Nodup → "_id" ∉ keysD (splitData d).2.1 := by
  intro d
  induction d with
  | nil => intro pid h; simp [lookupD] at h
  | cons p rest ih =>
    intro pid h hnd
    obtain ⟨k, v⟩ := p
    simp only [keysD, List.map_cons, List.nodup_cons] at hnd
    obtain ⟨hkrest, hndrest⟩ := hnd
    simp only [lookupD] at h
    rcases hsr : splitData rest with ⟨mn, n, a⟩
    have hsub := (splitData_keys_sublists rest).1
    rw [hsr] at hsub
    by_cases hk : k = "_id"
    · rw [if_pos hk] at h
      injection h with h
      subst h
      subst hk
      simp only [splitData, hsr]
      exact fun hmem => hkrest (hsub.mem hmem)
    · rw [if_neg hk] at h
      have ihr := ih h hndrest
      rw [hsr] at ihr
      cases v with
      | obj o =>
        simp only [splitData, hsr, keysD, List.map_cons, List.mem_cons, not_or]
        exact ⟨fun he => hk he.symm, ihr⟩
      | str s0 => simpa [splitData, hsr] using ihr
      | bool b => simpa [splitData, hsr] using ihr
      | num q => simpa [splitData, hsr] using ihr
      | null => simpa [splitData, hsr] using ihr
      | arr l =>
        cases l with
        | nil => simpa [splitData, hsr] using ihr
        | cons y ys =>
          cases y with
          | obj o => simpa [splitData, hsr] using ihr
          | str s0 => simpa [splitData, hsr] using ihr
          | bool b => simpa [splitData, hsr] using ihr
          | num q => simpa [splitData, hsr] using ihr
          | arr l2 => simpa [splitData, hsr] using ihr
          | null => simpa [splitData, hsr] using ihr

/-- What the nested-field loop does to the caller's document: every nested
field of the iteration list ends up augmented in place with a fresh `_id` and
the back-reference `<table>__id`, and every other key is untouched. -/
theorem nestedLoop_mutation {gen : Nat → String} {schema table : String} :
    ∀ {fields : Data} {st : PState} {d : Data} {stmts : List String}
      {d1 : Data} {st1 : PState} {pid : String},
      nestedFieldsLoop gen st d schema table fields = (.ok stmts, d1, st1) →
      lookupD d "_id" = some (.str pid) →
      "_id" ∉ keysD fields →
      (keysD fields).Nodup →
      (∀ f v, (f, v) ∈ fields →
        ∃ m u, v = .obj m ∧
          lookupD d1 f = some (.obj (upsert (upsert m "_id" (.str u))
            (table ++ "__id") (.str pid)))) ∧
      (∀ g, g ∉ keysD fields → lookupD d1 g = lookupD d g) := by
  intro fields
  induction fields with
  | nil =>
    intro st d stmts d1 st1 pid h hpid hid hnd
    simp only [nestedFieldsLoop, Prod.mk.injEq, GoResult.ok.injEq] at h
    refine ⟨fun f v hv => absurd hv (List.not_mem_nil _), fun g _ => ?_⟩
    rw [← h.2.1]
  | cons p rest ih =>
    intro st d stmts d1 st1 pid h hpid hid hnd
    obtain ⟨f0, v0⟩ := p
    simp only [keysD, List.map_cons, List.mem_cons, not_or] at hid
    obtain ⟨hid0, hidrest⟩ := hid
    simp only [keysD, List.map_cons, List.nodup_cons] at hnd
    obtain ⟨hf0rest, hndrest⟩ := hnd
    unfold nestedFieldsLoop at h
    split at h
    · rename_i parentID heq
      rw [hpid] at heq
      injection heq with heq
      injection heq with heq
      subst heq
      split at h
      · rename_i stmts1 v1 st2 hg
        split at h
        · rename_i stmts2 d2 st3 hr
          simp only [Prod.mk.injEq, GoResult.ok.injEq] at h
          obtain ⟨-, hd1, hst1⟩ := h
          subst hd1 hst1
          obtain ⟨m0, rfl, hv1⟩ := genNested_ok_value hg
          have hpid2 : lookupD (upsert d f0 v1) "_id" = some (.str pid) := by
            rw [lookupD_upsert_ne d v1 (fun he => hid0 he.symm)]
            exact hpid
          obtain ⟨ihmut, ihframe⟩ :=
            ih hr hpid2 hidrest hndrest
          constructor
          · intro f v hv
            rcases List.mem_cons.1 hv with hv | hv
            · injection hv with hv1e hv2e
              subst hv1e
              refine ⟨m0, gen st.uuidCount, hv2e, ?_⟩
              rw [ihframe f hf0rest, lookupD_upsert_self d f v1, hv1]
            · exact ihmut f v hv
          · intro g hg2
            simp only [keysD, List.map_cons, List.mem_cons, not_or] at hg2
            obtain ⟨hgf0, hgrest⟩ := hg2
            rw [ihframe g (by simpa [keysD] using hgrest),
              lookupD_upsert_ne d v1 (fun he => hgf0 he.symm)]
        · simp at h
        · simp at h
      · simp at h
      · simp at h
    · simp at h

/-- The array-field loop only rewrites the array fields of the document. -/
theorem arrayLoop_frame {gen : Nat → String} {schema table : String} :
    ∀ {fields : List (String × List Value)} {st : PState} {d : Data}
      {stmts : List String} {d1 : Data} {st1 : PState},
      arrayFieldsLoop gen st d schema table fields = (.ok stmts, d1, st1) →
      ∀ g, g ∉ fields.map Prod.fst → lookupD d1 g = lookupD d g := by
  intro fields
  induction fields with
  | nil =>
    intro st d stmts d1 st1 h g _
    simp only [arrayFieldsLoop, Prod.mk.injEq, GoResult.ok.injEq] at h
    rw [← h.2.1]
  | cons p rest ih =>
    intro st d stmts d1 st1 h g hg
    obtain ⟨f0, l0⟩ := p
    simp only [List.map_cons, List.mem_cons, not_or] at hg
    obtain ⟨hgf0, hgrest⟩ := hg
    unfold arrayFieldsLoop at h
    split at h
    · rename_i parentID heq
      split at h
      · rename_i stmts1 vs st2 hga
        split at h
        · rename_i stmts2 d2 st3 hr
          simp only [Prod.mk.injEq, GoResult.ok.injEq] at h
          obtain ⟨-, hd1, hst1⟩ := h
          subst hd1 hst1
          rw [ih hr g hgrest,
            lookupD_upsert_ne d (.arr vs) (fun he => hgf0 he.symm)]
        · simp at h
        · simp at h
      · simp at h
      · simp at h
    · simp at h

/-- Both insert branches run the same two loops; this assembles the
in-place-mutation fact for one nested field across them. -/
theorem mutation_assemble {gen : Nat → String} {schema table : String}
    {stA stB stC : PState} {o mainD nestedD : Data}
    {arrayD : List (String × List Value)} {s2 s3 : List String}
    {d2 d3 : Data} {field pid : String} {m : List (String × Value)}
    (hsplit : splitData o = (mainD, nestedD, arrayD))
    (hnl : nestedFieldsLoop gen stA o schema table nestedD = (.ok s2, d2, stB))
    (hal : arrayFieldsLoop gen stB d2 schema table arrayD = (.ok s3, d3, stC))
    (hpid : lookupD o "_id" = some (.str pid))
    (hfield : lookupD o field = some (.obj m))
    (hnodup : (keysD o).Nodup) :
    ∃ u, lookupD d3 field = some (.obj (upsert (upsert m "_id" (.str u))
      (table ++ "__id") (.str pid))) := by
  have hmem : (field, Value.obj m) ∈ nestedD := by
    have := splitData_nested_mem hfield
    rwa [hsplit] at this
  have hidnot : "_id" ∉ keysD nestedD := by
    have := splitData_id_not_nested hpid hnodup
    rwa [hsplit] at this
  have hnd2 : (keysD nestedD).Nodup := by
    have := (splitData_keys_sublists o).1
    rw [hsplit] at this
    exact this.nodup hnodup
  obtain ⟨hmut, -⟩ := nestedLoop_mutation hnl hpid hidnot hnd2
  obtain ⟨m2, u, hobj, hlook⟩ := hmut field (.obj m) hmem
  injection hobj with hobj
  subst hobj
  have hnotarr : field ∉ arrayD.map Prod.fst := by
    have := splitData_disjoint hnodup field
    rw [hsplit] at this
    exact this (List.mem_map.2 ⟨(field, .obj m), hmem, rfl⟩)
  refine ⟨u, ?_⟩
  rw [arrayLoop_frame hal field hnotarr]
  exact hlook

/-- C8 amended: the two synthetic child-row fields are written into the
caller's nested object itself (the Go map is shared by reference, not
copied): after a successful insert, the caller's data holds, under the
nested field, the original object augmented with `_id` (a fresh generated
identifier) and `<table>__id` (the parent row's `_id`). -/
theorem claim_C8_mutates_caller (gen : Nat → String) (st : PState)
    (opLog : OpLog) (stmts : List String) (d1 : Data) (st1 : PState)
    (field : String) (m : List (String × Value)) (pid schema table : String)
    (hop : opLog.op = "i")
    (h : processOpLog gen st opLog = (.ok stmts, d1, st1))
    (hns : parseNamespace opLog.ns = .ok (schema, table))
    (hpid : lookupD opLog.o "_id" = some (.str pid))
    (hfield : lookupD opLog.o field = some (.obj m))
    (hnodup : (keysD opLog.o).Nodup) :
    ∃ u, lookupD d1 field = some (.obj (upsert (upsert m "_id" (.str u))
      (table ++ "__id") (.str pid))) := by
  rw [processOpLog_insert hop] at h
  unfold handleInsert at h
  split at h
  · simp at h
  · rename_i schema2 table2 hns2
    rw [hns] at hns2
    simp only [Except.ok.injEq, Prod.mk.injEq] at hns2
    obtain ⟨rfl, rfl⟩ := hns2
    split at h
    · rename_i mainD nestedD arrayD hsplit
      split at h
      · dsimp only at h
        split at h
        · simp at h
        · rename_i alterStmt halter
          split at h
          · rename_i stmts2 d2 st2 hnl
            split at h
            · rename_i stmts3 d3 st3 hal
              split at h
              · simp at h
              · simp only [Prod.mk.injEq, GoResult.ok.injEq] at h
                obtain ⟨-, hd, -⟩ := h
                subst hd
                exact mutation_assemble hsplit hnl hal hpid hfield hnodup
            · simp at h
            · simp at h
          · simp at h
          · simp at h
      · dsimp only at h
        split at h
        · simp at h
        · rename_i tbl htbl
          split at h
          · rename_i stmts2 d2 st2 hnl
            split at h
            · rename_i stmts3 d3 st3 hal
              split at h
              · simp at h
              · simp only [Prod.mk.injEq, GoResult.ok.injEq] at h
                obtain ⟨-, hd, -⟩ := h
                subst hd
                exact mutation_assemble hsplit hnl hal hpid hfield hnodup
            · simp at h
            · simp at h
          · simp at h
          · simp at h

/-- An insert with one nested object (`phone`) for the C8 scenario. -/
def recC8 : OpLog :=
  { op := "i", ns := "test.student",
    o := [("_id", .str "a1"), ("phone", .obj [("personal", .str "1")])],
    o2 := none }

/-- Witness for the amended C8 at `recC8`. -/
theorem claim_C8_witness :
    ∃ u, lookupD
      [("_id", Value.str "a1"),
       ("phone", Value.obj [("personal", .str "1"), ("_id", .str "random-uuid"),
         ("student__id", .str "a1")])] "phone" =
      some (.obj (upsert (upsert [("personal", Value.str "1")] "_id" (.str u))
        ("student" ++ "__id") (.str "a1"))) :=
  claim_C8_mutates_caller gen0 newParser recC8
    ["CREATE SCHEMA test;",
     "CREATE TABLE test.student (_id VARCHAR(255) PRIMARY KEY);",
     "CREATE TABLE test.student_phone (_id VARCHAR(255) PRIMARY KEY, personal VARCHAR(255), student__id VARCHAR(255));",
     "INSERT INTO test.student_phone (_id, personal, student__id) VALUES ('random-uuid', '1', 'a1');",
     "INSERT INTO test.student (_id) VALUES ('a1');"]
    [("_id", .str "a1"),
     ("phone", .obj [("personal", .str "1"), ("_id", .str "random-uuid"),
       ("student__id", .str "a1")])]
    ⟨["test.student", "test.student_phone"],
     [("test.student_phone", ["personal", "_id", "student__id"]),
      ("test.student", ["_id"])], 1⟩
    "phone" [("personal", .str "1")] "a1" "test" "student"
    rfl rfl rfl rfl rfl (by decide)

/-- C8 counterexample: after a successful insert with a nested object, the
caller's data mapping is NOT unchanged — the nested object gained the two
synthetic fields. -/
theorem claim_C8_counterexample :
    (∃ l, (processOpLog gen0 newParser recC8).1 = .ok l) ∧
    (processOpLog gen0 newParser recC8).2.1 ≠ recC8.o := by
  refine ⟨⟨_, rfl⟩, ?_⟩
  intro h
  have hobs : (match lookupD (processOpLog gen0 newParser recC8).2.1 "phone" with
      | some (.obj mm) => mm.length
      | _ => 0) =
    (match lookupD recC8.o "phone" with
      | some (.obj mm) => mm.length
      | _ => 0) := by rw [h]
  rw [show (match lookupD (processOpLog gen0 newParser recC8).2.1 "phone" with
      | some (.obj mm) => mm.length
      | _ => 0) = 3 from rfl] at hobs
  rw [show (match lookupD recC8.o "phone" with
      | some (.obj mm) => mm.length
      | _ => 0) = 1 from rfl] at hobs
  exact absurd hobs (by decide)

end OpLogParser
